import Mathlib

/-!
MyTinySTL `alloc`: the pooled small-object allocator.

A shallow embedding of `MyTinySTL/alloc.h` (class `mystl::alloc`) and theorems about it.

Modelling conventions.

* `size_t` is taken to be 64 bits wide.  Values are natural numbers and every `size_t`
  operation of the source is written with its wrap-around modulo `SIZE_MOD = 2 ^ 64`
  (`uadd`, `usub`, `umul`, `ushl`, `unot`).
* Addresses (`char*`, `void*`, `FreeList*`) are natural numbers, `0` is `nullptr`.  Pointer
  arithmetic `p + k` is plain addition; the pointer difference `end_free - start_free`, which
  the source converts to `size_t`, is `usub`.
* The static members of `alloc` form the record `State`.  Memory is represented only as far as
  the allocator touches it: `mem a` is the `next` word of the `FreeList` node at address `a`.
* `std::malloc` / `std::free` are an external collaborator.  The state keeps the log of the
  requests issued so far and the answer of `std::malloc` is given by an arbitrary oracle `Heap`
  that sees this log and the requested size (`0` is a refused request).
* `std::exit(1)` ends the run: an operation yields an `Outcome`, which is either a normal
  return, a process exit, or `spin` when the recursion of `__chunk_alloc` went deeper than the
  supplied fuel.
-/

namespace mystl

/-- Modulus of `size_t` arithmetic (64-bit `size_t`). -/
def SIZE_MOD : Nat := 18446744073709551616

/-- Addition of `size_t` values. -/
def uadd (a b : Nat) : Nat := (a + b) % SIZE_MOD

/-- Subtraction of `size_t` values (also the pointer difference converted to `size_t`). -/
def usub (a b : Nat) : Nat := (a % SIZE_MOD + SIZE_MOD - b % SIZE_MOD) % SIZE_MOD

/-- Multiplication of `size_t` values. -/
def umul (a b : Nat) : Nat := (a * b) % SIZE_MOD

/-- Left shift `a << k` of a `size_t` value. -/
def ushl (a k : Nat) : Nat := (a * 2 ^ k) % SIZE_MOD

/-- Bitwise complement `~a` of a `size_t` value. -/
def unot (a : Nat) : Nat := SIZE_MOD - 1 - a % SIZE_MOD

/-- The enumerators `EAlign128 .. EAlign2048`. -/
def EAlign128 : Nat := 8
/-- See `EAlign128`. -/
def EAlign256 : Nat := 16
/-- See `EAlign128`. -/
def EAlign512 : Nat := 32
/-- See `EAlign128`. -/
def EAlign1024 : Nat := 64
/-- See `EAlign128`. -/
def EAlign2048 : Nat := 128

/-- Largest request served from the pool. -/
def ESmallObjectBytes : Nat := 2048

/-- Number of free lists. -/
def EFreeListsNumber : Nat := 48

/-- One call into the general-purpose heap. -/
inductive HeapEvent where
  | malloc (bytes : Nat)
  | free (p : Nat)
  deriving DecidableEq, Repr

/-- The general-purpose heap: given the calls made so far and a requested size, the address
`std::malloc` answers with (`0` when it refuses). -/
abbrev Heap := List HeapEvent → Nat → Nat

/-- Write of the `next` word of the node at address `a`. -/
def write (mem : Nat → Nat) (a v : Nat) : Nat → Nat :=
  fun x => if x = a then v else mem x

/-- The static data members of `alloc`, the link words of memory, the heap calls issued and
the lines written to `std::cerr`. -/
structure State where
  start_free : Nat
  end_free : Nat
  heap_size : Nat
  free_list : Nat → Nat
  mem : Nat → Nat
  log : List HeapEvent
  cerr : List String

/-- Result of running an operation. -/
inductive Outcome (α : Type) where
  | ret (v : α) (s : State)
  | exit (code : Nat) (s : State)
  | spin

namespace alloc

/-- Static initialisation (alloc.h lines 65-76): empty pool, zero `heap_size`, 48 null heads. -/
def init : State :=
  { start_free := 0, end_free := 0, heap_size := 0, free_list := fun _ => 0,
    mem := fun _ => 0, log := [], cerr := [] }

/-- Source: `alloc::__align`. -/
def __align (bytes : Nat) : Nat :=
  if bytes ≤ 512 then
    (if bytes ≤ 256 then (if bytes ≤ 128 then EAlign128 else EAlign256) else EAlign512)
  else
    (if bytes ≤ 1024 then EAlign1024 else EAlign2048)

/-- Source: `alloc::__round_up`, `(bytes + __align(bytes) - 1) & ~(__align(bytes) - 1)`. -/
def __round_up (bytes : Nat) : Nat :=
  Nat.land (usub (uadd bytes (__align bytes)) 1) (unot (usub (__align bytes) 1))

/-- Source: `alloc::__freelist_index`. -/
def __freelist_index (bytes : Nat) : Nat :=
  if bytes ≤ 512 then
    (if bytes ≤ 256 then
      (if bytes ≤ 128 then usub (usub (uadd bytes EAlign128) 1 / EAlign128) 1
       else uadd 15 (usub (uadd bytes EAlign256) 129 / EAlign256))
     else uadd 23 (usub (uadd bytes EAlign512) 257 / EAlign512))
  else
    (if bytes ≤ 1024 then uadd 31 (usub (uadd bytes EAlign1024) 513 / EAlign1024)
     else uadd 39 (usub (uadd bytes EAlign2048) 1025 / EAlign2048))

/-- Source: `alloc::__get_blocks`. -/
def __get_blocks (bytes : Nat) : Nat :=
  if bytes ≤ 512 then
    (if bytes ≤ 256 then (if bytes ≤ 128 then 8 else 4) else 2)
  else
    (if bytes ≤ 1024 then 2 else 1)

/-- Source: `alloc::__chunk_alloc(size, nblock)`; the result carries the returned pointer and
the final value of the reference parameter `nblock`.

The `for` loop of the salvage branch leaves the function in its first iteration on both paths
(a recursive `return` when the bucket of `i = size` has a head, `std::exit(1)` otherwise), so
its increment is never executed; when `size > ESmallObjectBytes` the loop body is not entered
and control falls through to the common growth code.  The assignments to the local
`my_free_list` do not reach `free_list` and therefore leave the state alone. -/
def __chunk_alloc (H : Heap) : Nat → Nat → Nat → State → Outcome (Nat × Nat)
  | 0, _, _, _ => .spin
  | fuel + 1, size, nblock, s =>
    let need_bytes := umul size nblock
    let pool_bytes := usub s.end_free s.start_free
    if pool_bytes ≥ need_bytes then
      .ret (s.start_free, nblock) { s with start_free := s.start_free + need_bytes }
    else if pool_bytes ≥ size then
      let nblock1 := pool_bytes / size
      let need_bytes1 := umul size nblock1
      .ret (s.start_free, nblock1) { s with start_free := s.start_free + need_bytes1 }
    else
      let s1 : State :=
        { s with mem :=
            if pool_bytes > 0 then
              write s.mem s.start_free (s.free_list (__freelist_index pool_bytes))
            else s.mem }
      let bytes_to_get := uadd (ushl need_bytes 1) (__round_up (s1.heap_size / 2 ^ 4))
      let m := H s1.log bytes_to_get
      let s2 : State :=
        { s1 with start_free := m, log := s1.log ++ [HeapEvent.malloc bytes_to_get] }
      let grown : State :=
        { s2 with end_free := s2.start_free + bytes_to_get,
                  heap_size := uadd s2.heap_size bytes_to_get }
      if m = 0 then
        if size ≤ ESmallObjectBytes then
          let p := s2.free_list (__freelist_index size)
          if p ≠ 0 then
            __chunk_alloc H fuel size nblock { s2 with start_free := p, end_free := p + size }
          else
            .exit 1 { s2 with end_free := 0, cerr := s2.cerr ++ ["out of memory"] }
        else
          __chunk_alloc H fuel size nblock grown
      else
        __chunk_alloc H fuel size nblock grown

/-- The loop of `alloc::__refill`: `cur` is the node written in this iteration and `k` the
number of iterations that follow it (`k = nblock - 1 - i`).  The last iteration stores
`nullptr`, every other one stores the address of the next block. -/
def __refill_loop (n : Nat) : Nat → Nat → (Nat → Nat) → (Nat → Nat)
  | 0, cur, mem => write mem cur 0
  | k + 1, cur, mem => __refill_loop n k (cur + n) (write mem cur (cur + n))

/-- Source: `alloc::__refill`.  The local `my_free_list` receives `c + n`, the table does not. -/
def __refill (H : Heap) (fuel n : Nat) (s : State) : Outcome Nat :=
  match __chunk_alloc H fuel n (__get_blocks n) s with
  | .spin => .spin
  | .exit code s1 => .exit code s1
  | .ret (c, nblock) s1 =>
    if nblock = 1 then .ret c s1
    else .ret c { s1 with mem := __refill_loop n (usub nblock 1 - 1) (c + n) s1.mem }

/-- Source: `alloc::allocate`.  On the fast path `my_free_list = result->next` assigns the
local variable only. -/
def allocate (H : Heap) (fuel n : Nat) (s : State) : Outcome Nat :=
  if n > ESmallObjectBytes then
    .ret (H s.log n) { s with log := s.log ++ [HeapEvent.malloc n] }
  else
    let result := s.free_list (__freelist_index n)
    if result = 0 then __refill H fuel (__round_up n) s
    else .ret result s

/-- Source: `alloc::deallocate`.  `q->next = my_free_list` is a write to memory;
`my_free_list = q` assigns the local variable only. -/
def deallocate (p n : Nat) (s : State) : State :=
  if n > ESmallObjectBytes then
    { s with log := s.log ++ [HeapEvent.free p] }
  else
    { s with mem := write s.mem p (s.free_list (__freelist_index n)) }

/-- Source: `alloc::reallocate`. -/
def reallocate (H : Heap) (fuel p old_size new_size : Nat) (s : State) : Outcome Nat :=
  let s1 := deallocate p old_size s
  match allocate H fuel new_size s1 with
  | .ret q s2 => .ret q s2
  | .exit code s2 => .exit code s2
  | .spin => .spin

end alloc

/-- A heap that places each granted region after all earlier ones, starting at address 4096. -/
def bumpHeap : Heap := fun log _ =>
  4096 + (log.map (fun e => match e with | .malloc b => b | .free _ => 0)).sum

/-- A heap that refuses every request. -/
def emptyHeap : Heap := fun _ _ => 0

open alloc

/-- The granularity table in the words of the specification. -/
def alignment_spec (bytes : Nat) : Nat :=
  if bytes ≤ 128 then 8
  else if bytes ≤ 256 then 16
  else if bytes ≤ 512 then 32
  else if bytes ≤ 1024 then 64
  else 128

/-- Value of the local `bytes_to_get` of `__chunk_alloc size nblock` when it runs its growth
branch in state `s`: `(need_bytes << 1) + __round_up(heap_size >> 4)`. -/
def bytes_to_get (size nblock : Nat) (s : State) : Nat :=
  uadd (ushl (umul size nblock) 1) (__round_up (s.heap_size / 2 ^ 4))

/-- Link memory after the growth branch of `__chunk_alloc` has filed the leftover of the pool:
when the pool is not empty its first word receives the head read from the table. -/
def recycled_mem (s : State) : Nat → Nat :=
  if usub s.end_free s.start_free > 0 then
    write s.mem s.start_free (s.free_list (__freelist_index (usub s.end_free s.start_free)))
  else s.mem

/-- State in which `__chunk_alloc size nblock` retries after the heap has answered its growth
request with the address `m`. -/
def grown (m size nblock : Nat) (s : State) : State :=
  { s with
    start_free := m,
    end_free := m + bytes_to_get size nblock s,
    heap_size := uadd s.heap_size (bytes_to_get size nblock s),
    mem := recycled_mem s,
    log := s.log ++ [HeapEvent.malloc (bytes_to_get size nblock s)] }

/-- State in which `__chunk_alloc size nblock` retries after a refused growth request when the
bucket of `size` has the head `p`: the block at `p` becomes the pool. -/
def adopted (p size nblock : Nat) (s : State) : State :=
  { s with
    start_free := p,
    end_free := p + size,
    mem := recycled_mem s,
    log := s.log ++ [HeapEvent.malloc (bytes_to_get size nblock s)] }

/-- State in which `__chunk_alloc size nblock` calls `std::exit(1)`. -/
def exhausted (size nblock : Nat) (s : State) : State :=
  { s with
    start_free := 0,
    end_free := 0,
    mem := recycled_mem s,
    log := s.log ++ [HeapEvent.malloc (bytes_to_get size nblock s)],
    cerr := s.cerr ++ ["out of memory"] }

/-- The specification of `reallocate`: `deallocate(p, old_size)` followed by
`allocate(new_size)`. -/
def reallocate_spec (H : Heap) (fuel p old_size new_size : Nat) (s : State) : Outcome Nat :=
  allocate H fuel new_size (deallocate p old_size s)

/-- Returned value of an outcome, when the call returned. -/
def Outcome.value? {α : Type} : Outcome α → Option α
  | .ret v _ => some v
  | _ => none

/-- State in which an outcome leaves the allocator (on return or at process exit). -/
def Outcome.state? {α : Type} : Outcome α → Option State
  | .ret _ s => some s
  | .exit _ s => some s
  | .spin => none

/-- The scenario `p = allocate(n); deallocate(p, n); q = allocate(n)`: the pair `(p, q)`. -/
def roundtrip (H : Heap) (fuel n : Nat) (s : State) : Option (Nat × Nat) :=
  match allocate H fuel n s with
  | .ret p s1 =>
    match allocate H fuel n (deallocate p n s1) with
    | .ret q _ => some (p, q)
    | _ => none
  | _ => none

/-- The state after `p = allocate(n); deallocate(p, n)`, together with `p`. -/
def allocThenFree (H : Heap) (fuel n : Nat) (s : State) : Option (Nat × State) :=
  match allocate H fuel n s with
  | .ret p s1 => some (p, deallocate p n s1)
  | _ => none

/-- A state whose bucket for 64-byte blocks holds the chain `4096 → 8192 → null`. -/
def stateWithBucket : State :=
  { init with
    free_list := fun i => if i = 7 then 4096 else 0,
    mem := fun a => if a = 4096 then 8192 else 0 }

/-- What the invariants of the static data say in every state the allocator can reach: the
table holds only null heads, the pool bounds are ordered and less than `2 ^ 64` apart, a null
`start_free` comes with a null `end_free`, and `heap_size` is a `size_t` value. -/
structure Inv (s : State) : Prop where
  heads_null : ∀ i, s.free_list i = 0
  start_le : s.start_free ≤ s.end_free
  pool_lt : s.end_free - s.start_free < SIZE_MOD
  start_null : s.start_free = 0 → s.end_free = 0
  heap_lt : s.heap_size < SIZE_MOD

/-- States reachable from the static initialisation by calls of the three public operations
that return (sizes are positive, freed pointers non-null), against the heap `H`. -/
inductive Reachable (H : Heap) : State → Prop where
  | init : Reachable H alloc.init
  | allocate {s s1 : State} {fuel n p : Nat} : Reachable H s → 1 ≤ n →
      alloc.allocate H fuel n s = .ret p s1 → Reachable H s1
  | deallocate {s : State} {p n : Nat} : Reachable H s → p ≠ 0 → 1 ≤ n →
      Reachable H (alloc.deallocate p n s)
  | reallocate {s s1 : State} {fuel p old_size new_size q : Nat} : Reachable H s → p ≠ 0 →
      1 ≤ old_size → 1 ≤ new_size →
      alloc.reallocate H fuel p old_size new_size s = .ret q s1 → Reachable H s1

/-- Exit status of an outcome, when the process was terminated. -/
def Outcome.exitCode? {α : Type} : Outcome α → Option Nat
  | .exit code _ => some code
  | _ => none

/-- The layout of the bucket table in the words of the specification: the rounded size of the
blocks of bucket `i`, for 16 buckets of granularity 8 followed by 8 buckets each of granularity
16, 32, 64 and 128. -/
def class_size_spec (i : Nat) : Nat :=
  if i < 16 then 8 * (i + 1)
  else if i < 24 then 128 + 16 * (i - 15)
  else if i < 32 then 256 + 32 * (i - 23)
  else if i < 40 then 512 + 64 * (i - 31)
  else 1024 + 128 * (i - 39)

/-- The granularity of bucket `i` in the layout of the specification. -/
def granularity_spec (i : Nat) : Nat :=
  if i < 16 then 8
  else if i < 24 then 16
  else if i < 32 then 32
  else if i < 40 then 64
  else 128

/-- The refill batch size in the words of the specification: 8 for sizes up to 128, 4 up to
256, 2 up to 512 and 1 for anything above 512. -/
def preferred_block_count_spec (size : Nat) : Nat :=
  if size ≤ 128 then 8
  else if size ≤ 256 then 4
  else if size ≤ 512 then 2
  else 1

/-- A run of `allocate` calls with the given sizes, one after the other; the result is the
state after the last call, when every call returned. -/
def run_allocs (H : Heap) (fuel : Nat) : List Nat → State → Option State
  | [], s => some s
  | n :: rest, s =>
    match allocate H fuel n s with
    | .ret _ s1 => run_allocs H fuel rest s1
    | _ => none

/-- A state with an empty pool in which only the bucket of the 128-byte class (index 15) has a
block, at address 8192. -/
def stateWithLargerBucket : State :=
  { init with free_list := fun i => if i = 15 then 8192 else 0 }

/-- A state whose pool is the region `[4096, 4096 + 2 ^ 33)`. -/
def stateWithHugePool : State :=
  { init with start_free := 4096, end_free := 4096 + 8589934592 }

/-- The state after `allocate(8); allocate(1024); allocate(512)` from the initial state, against
`bumpHeap`. -/
def leftoverState : State :=
  match run_allocs bumpHeap 2 [8, 1024, 512] alloc.init with
  | some s => s
  | none => alloc.init

end mystl

open mystl mystl.alloc

/-! ## Size-class arithmetic -/

/-- Clearing the low `k` bits of a 64-bit value with the mask `~(2^k - 1)` rounds it down to a
multiple of `2^k`. -/
theorem land_clear_low (x k : Nat) (hx : x < 2 ^ 64) (hk : k ≤ 64) :
    Nat.land x (2 ^ 64 - 1 - (2 ^ k - 1)) = x / 2 ^ k * 2 ^ k := by
  have hpow : 2 ^ k ≤ 2 ^ 64 := Nat.pow_le_pow_right (by decide) hk
  have hpos : 0 < 2 ^ k := Nat.pow_pos (by decide)
  have hlt : 2 ^ k - 1 < 2 ^ 64 := by omega
  have hmask : 2 ^ 64 - 1 - (2 ^ k - 1) = 2 ^ 64 - ((2 ^ k - 1) + 1) := by omega
  apply Nat.eq_of_testBit_eq
  intro i
  show (x &&& (2 ^ 64 - 1 - (2 ^ k - 1))).testBit i = _
  rw [Nat.testBit_and, hmask, Nat.testBit_two_pow_sub_succ hlt, Nat.testBit_two_pow_sub_one,
    Nat.mul_comm, Nat.testBit_mul_pow_two, ← Nat.shiftRight_eq_div_pow, Nat.testBit_shiftRight]
  by_cases hik : k ≤ i
  · have e : k + (i - k) = i := by omega
    by_cases hi : i < 64
    · simp [hik, hi, e, Nat.not_lt.mpr hik]
    · have hxi : x.testBit i = false :=
        Nat.testBit_lt_two_pow (Nat.lt_of_lt_of_le hx (Nat.pow_le_pow_right (by decide) (by omega)))
      simp [hxi, e]
  · have : i < k := by omega
    simp [hik, this]

/-- The granularity is one of the five powers of two `2^3 .. 2^7`. -/
theorem align_pow (b : Nat) : ∃ k, 3 ≤ k ∧ k ≤ 7 ∧ __align b = 2 ^ k := by
  unfold __align EAlign128 EAlign256 EAlign512 EAlign1024 EAlign2048
  split_ifs
  · exact ⟨3, by decide, by decide, rfl⟩
  · exact ⟨4, by decide, by decide, rfl⟩
  · exact ⟨5, by decide, by decide, rfl⟩
  · exact ⟨6, by decide, by decide, rfl⟩
  · exact ⟨7, by decide, by decide, rfl⟩

/-- Closed form of `__round_up` whenever `bytes + __align bytes` does not wrap. -/
theorem round_up_closed (b : Nat) (hb : b + 128 ≤ SIZE_MOD) :
    __round_up b = (b + __align b - 1) / __align b * __align b := by
  obtain ⟨k, hk3, hk7, hk⟩ := align_pow b
  have hpos : 0 < 2 ^ k := Nat.pow_pos (by decide)
  have hle : 2 ^ k ≤ 2 ^ 7 := Nat.pow_le_pow_right (by decide) hk7
  have h7 : (2 : Nat) ^ 7 = 128 := by norm_num
  have hMn : (2 : Nat) ^ 64 = 18446744073709551616 := by norm_num
  have hb1 : b + 128 ≤ 18446744073709551616 := hb
  unfold __round_up
  rw [hk]
  have e1 : usub (uadd b (2 ^ k)) 1 = b + 2 ^ k - 1 := by
    unfold usub uadd SIZE_MOD
    generalize 2 ^ k = a at *
    omega
  have e2 : unot (usub (2 ^ k) 1) = 2 ^ 64 - 1 - (2 ^ k - 1) := by
    unfold unot usub SIZE_MOD
    rw [hMn]
    generalize 2 ^ k = a at *
    omega
  rw [e1, e2]
  apply land_clear_low
  · rw [hMn]
    generalize 2 ^ k = a at *
    omega
  · omega

/-- On the pooled range `__round_up` is the usual round-up division by the granularity. -/
theorem round_up_pooled (b : Nat) (hb : b ≤ 2048) :
    __round_up b = (b + __align b - 1) / __align b * __align b :=
  round_up_closed b (by unfold SIZE_MOD; omega)

/-- Explicit value of `__freelist_index` on each of the five ranges of the pooled sizes. -/
theorem freelist_index_pooled (b : Nat) (h1 : 1 ≤ b) (h2 : b ≤ 2048) :
    __freelist_index b =
      if b ≤ 128 then (b + 7) / 8 - 1
      else if b ≤ 256 then 15 + (b - 113) / 16
      else if b ≤ 512 then 23 + (b - 225) / 32
      else if b ≤ 1024 then 31 + (b - 449) / 64
      else 39 + (b - 897) / 128 := by
  unfold __freelist_index uadd usub SIZE_MOD EAlign128 EAlign256 EAlign512 EAlign1024 EAlign2048
  split_ifs <;> omega

/-- C8: `__round_up` is idempotent on the pooled range: for every `b` in `1..2048`,
`round_up (round_up b) = round_up b`. -/
theorem round_up_idempotent (b : Nat) (h1 : 1 ≤ b) (h2 : b ≤ 2048) :
    __round_up (__round_up b) = __round_up b := by
  have hr : __round_up b ≤ 2048 := by
    rw [round_up_pooled b h2]
    unfold __align EAlign128 EAlign256 EAlign512 EAlign1024 EAlign2048
    split_ifs <;> omega
  rw [round_up_pooled _ hr]
  rw [round_up_pooled b h2]
  unfold __align EAlign128 EAlign256 EAlign512 EAlign1024 EAlign2048
  split_ifs <;> omega

/-- Witness of C8 at `b = 129`, where rounding gives 144. -/
theorem round_up_idempotent_witness :
    (1 ≤ 129 ∧ 129 ≤ 2048) ∧ __round_up (__round_up 129) = __round_up 129 :=
  ⟨by decide, round_up_idempotent 129 (by decide) (by decide)⟩

/-- C9: for every `b` in `1..2048`, with `g` the granularity of the specification table
(which is what `__align` returns), `__round_up b` is the least multiple of `g` that is at
least `b`: it is a multiple of `g`, at least `b`, less than `g` above `b`, below every other
such multiple, and at most 2048. -/
theorem round_up_least_multiple (b : Nat) (h1 : 1 ≤ b) (h2 : b ≤ 2048) :
    __align b = alignment_spec b ∧
    b ≤ __round_up b ∧
    __round_up b % alignment_spec b = 0 ∧
    __round_up b - b < alignment_spec b ∧
    (∀ m, b ≤ m → m % alignment_spec b = 0 → __round_up b ≤ m) ∧
    __round_up b ≤ 2048 := by
  have hal : __align b = alignment_spec b := by
    unfold __align alignment_spec EAlign128 EAlign256 EAlign512 EAlign1024 EAlign2048
    split_ifs <;> first | rfl | omega
  rw [round_up_pooled b h2, hal]
  refine ⟨rfl, ?_, ?_, ?_, ?_, ?_⟩
  · unfold alignment_spec
    split_ifs <;> omega
  · unfold alignment_spec
    split_ifs <;> omega
  · unfold alignment_spec
    split_ifs <;> omega
  · intro m hm hdiv
    revert hdiv
    unfold alignment_spec
    split_ifs <;> intro hdiv <;> omega
  · unfold alignment_spec
    split_ifs <;> omega

/-- Witness of C9 at `b = 129` (granularity 16, rounded size 144). -/
theorem round_up_least_multiple_witness :
    (1 ≤ 129 ∧ 129 ≤ 2048) ∧ __align 129 = 16 ∧ __round_up 129 = 144 ∧
    (∀ m, 129 ≤ m → m % 16 = 0 → 144 ≤ m) := by
  have h := round_up_least_multiple 129 (by decide) (by decide)
  have hg : alignment_spec 129 = 16 := by decide
  rw [hg] at h
  obtain ⟨ha, hge, hmod, hlt, hleast, _⟩ := h
  have hv : __round_up 129 = 144 := by omega
  refine ⟨by decide, ha, hv, ?_⟩
  intro m hm hd
  have := hleast m hm hd
  omega

/-- C10: `__freelist_index` is monotonic on `1..2048`, its values there lie in `0..47`, and
every index `i` in `0..47` is the value at some size in `1..2048`. -/
theorem freelist_index_monotone_onto (a b i : Nat) (ha : 1 ≤ a) (hab : a ≤ b) (hb : b ≤ 2048)
    (hi : i ≤ 47) :
    __freelist_index a ≤ __freelist_index b ∧
    __freelist_index b < EFreeListsNumber ∧
    ∃ c, 1 ≤ c ∧ c ≤ 2048 ∧ __freelist_index c = i := by
  refine ⟨?_, ?_, ?_⟩
  · rw [freelist_index_pooled a ha (by omega), freelist_index_pooled b (by omega) hb]
    split_ifs <;> omega
  · rw [freelist_index_pooled b (by omega) hb]
    unfold EFreeListsNumber
    split_ifs <;> omega
  · by_cases h15 : i ≤ 15
    · refine ⟨8 * (i + 1), by omega, by omega, ?_⟩
      rw [freelist_index_pooled _ (by omega) (by omega)]
      split_ifs <;> omega
    · by_cases h23 : i ≤ 23
      · refine ⟨128 + 16 * (i - 15), by omega, by omega, ?_⟩
        rw [freelist_index_pooled _ (by omega) (by omega)]
        split_ifs <;> omega
      · by_cases h31 : i ≤ 31
        · refine ⟨256 + 32 * (i - 23), by omega, by omega, ?_⟩
          rw [freelist_index_pooled _ (by omega) (by omega)]
          split_ifs <;> omega
        · by_cases h39 : i ≤ 39
          · refine ⟨512 + 64 * (i - 31), by omega, by omega, ?_⟩
            rw [freelist_index_pooled _ (by omega) (by omega)]
            split_ifs <;> omega
          · refine ⟨1024 + 128 * (i - 39), by omega, by omega, ?_⟩
            rw [freelist_index_pooled _ (by omega) (by omega)]
            split_ifs <;> omega

/-- Witness of C10 at the two ends of the pooled range and the last index. -/
theorem freelist_index_monotone_onto_witness :
    (1 ≤ 1 ∧ 1 ≤ 2048 ∧ 2048 ≤ 2048 ∧ 47 ≤ 47) ∧
    __freelist_index 1 ≤ __freelist_index 2048 ∧
    __freelist_index 2048 < EFreeListsNumber ∧
    ∃ c, 1 ≤ c ∧ c ≤ 2048 ∧ __freelist_index c = 47 :=
  ⟨by decide, freelist_index_monotone_onto 1 2048 47 (by decide) (by decide) (by decide)
    (by decide)⟩


/-! ## One step of `__chunk_alloc` -/

/-- First case of `__chunk_alloc`: the pool holds all the requested blocks. -/
theorem chunk_alloc_full (H : Heap) (fuel size nblock : Nat) (s : State)
    (h : umul size nblock ≤ usub s.end_free s.start_free) :
    __chunk_alloc H (fuel + 1) size nblock s =
      .ret (s.start_free, nblock) { s with start_free := s.start_free + umul size nblock } := by
  simp [__chunk_alloc, h]

/-- Second case of `__chunk_alloc`: the pool holds at least one block but not all of them. -/
theorem chunk_alloc_some (H : Heap) (fuel size nblock : Nat) (s : State)
    (h : ¬ umul size nblock ≤ usub s.end_free s.start_free)
    (h1 : size ≤ usub s.end_free s.start_free) :
    __chunk_alloc H (fuel + 1) size nblock s =
      .ret (s.start_free, usub s.end_free s.start_free / size)
        { s with start_free :=
            s.start_free + umul size (usub s.end_free s.start_free / size) } := by
  simp [__chunk_alloc, h, h1]

/-- Third case of `__chunk_alloc` with a granted request: the pool is replaced by the new
region and the call is retried. -/
theorem chunk_alloc_grow (H : Heap) (fuel size nblock : Nat) (s : State)
    (h : ¬ umul size nblock ≤ usub s.end_free s.start_free)
    (h1 : ¬ size ≤ usub s.end_free s.start_free)
    (hm : H s.log (bytes_to_get size nblock s) ≠ 0) :
    __chunk_alloc H (fuel + 1) size nblock s =
      __chunk_alloc H fuel size nblock
        (grown (H s.log (bytes_to_get size nblock s)) size nblock s) := by
  unfold bytes_to_get at hm
  rw [__chunk_alloc]
  simp only [ge_iff_le, h, h1, if_false, hm]
  rfl

/-- Third case of `__chunk_alloc` with a refused request and a pooled size whose bucket has a
head: that block is adopted as the pool and the call is retried. -/
theorem chunk_alloc_salvage (H : Heap) (fuel size nblock : Nat) (s : State)
    (h : ¬ umul size nblock ≤ usub s.end_free s.start_free)
    (h1 : ¬ size ≤ usub s.end_free s.start_free)
    (hm : H s.log (bytes_to_get size nblock s) = 0)
    (hs : size ≤ ESmallObjectBytes)
    (hp : s.free_list (__freelist_index size) ≠ 0) :
    __chunk_alloc H (fuel + 1) size nblock s =
      __chunk_alloc H fuel size nblock
        (adopted (s.free_list (__freelist_index size)) size nblock s) := by
  unfold bytes_to_get at hm
  rw [__chunk_alloc]
  simp only [ge_iff_le, h, h1, if_false, hm, hs, if_true, ne_eq, hp, not_false_eq_true]
  rfl

/-- Third case of `__chunk_alloc` with a refused request and a pooled size whose bucket is
empty: the process exits with status 1. -/
theorem chunk_alloc_exit (H : Heap) (fuel size nblock : Nat) (s : State)
    (h : ¬ umul size nblock ≤ usub s.end_free s.start_free)
    (h1 : ¬ size ≤ usub s.end_free s.start_free)
    (hm : H s.log (bytes_to_get size nblock s) = 0)
    (hs : size ≤ ESmallObjectBytes)
    (hp : s.free_list (__freelist_index size) = 0) :
    __chunk_alloc H (fuel + 1) size nblock s = .exit 1 (exhausted size nblock s) := by
  unfold bytes_to_get at hm
  rw [__chunk_alloc]
  simp only [ge_iff_le, h, h1, if_false, hm, hs, if_true, ne_eq, hp, not_true_eq_false]
  rfl

/-- Third case of `__chunk_alloc` with a refused request and a size above the pooled range:
the salvage loop is skipped and the call is retried with the pool set from the null result. -/
theorem chunk_alloc_refused_large (H : Heap) (fuel size nblock : Nat) (s : State)
    (h : ¬ umul size nblock ≤ usub s.end_free s.start_free)
    (h1 : ¬ size ≤ usub s.end_free s.start_free)
    (hm : H s.log (bytes_to_get size nblock s) = 0)
    (hs : ¬ size ≤ ESmallObjectBytes) :
    __chunk_alloc H (fuel + 1) size nblock s =
      __chunk_alloc H fuel size nblock (grown 0 size nblock s) := by
  unfold bytes_to_get at hm
  rw [__chunk_alloc]
  simp only [ge_iff_le, h, h1, if_false, hm, hs, if_true]
  rfl

/-! ## Fuel -/

/-- Once `__chunk_alloc` finishes within some fuel, more fuel does not change its outcome. -/
theorem chunk_alloc_fuel_succ (H : Heap) :
    ∀ (fuel size nblock : Nat) (s : State),
      __chunk_alloc H fuel size nblock s ≠ .spin →
      __chunk_alloc H (fuel + 1) size nblock s = __chunk_alloc H fuel size nblock s := by
  intro fuel
  induction fuel with
  | zero =>
    intro size nblock s hne
    exact absurd rfl hne
  | succ f ih =>
    intro size nblock s hne
    by_cases h : umul size nblock ≤ usub s.end_free s.start_free
    · rw [chunk_alloc_full H (f + 1) size nblock s h, chunk_alloc_full H f size nblock s h]
    · by_cases h1 : size ≤ usub s.end_free s.start_free
      · rw [chunk_alloc_some H (f + 1) size nblock s h h1, chunk_alloc_some H f size nblock s h h1]
      · by_cases hm : H s.log (bytes_to_get size nblock s) = 0
        · by_cases hs : size ≤ ESmallObjectBytes
          · by_cases hp : s.free_list (__freelist_index size) = 0
            · rw [chunk_alloc_exit H (f + 1) size nblock s h h1 hm hs hp,
                chunk_alloc_exit H f size nblock s h h1 hm hs hp]
            · rw [chunk_alloc_salvage H f size nblock s h h1 hm hs hp] at hne
              rw [chunk_alloc_salvage H (f + 1) size nblock s h h1 hm hs hp,
                chunk_alloc_salvage H f size nblock s h h1 hm hs hp]
              exact ih _ _ _ hne
          · rw [chunk_alloc_refused_large H f size nblock s h h1 hm hs] at hne
            rw [chunk_alloc_refused_large H (f + 1) size nblock s h h1 hm hs,
              chunk_alloc_refused_large H f size nblock s h h1 hm hs]
            exact ih _ _ _ hne
        · rw [chunk_alloc_grow H f size nblock s h h1 hm] at hne
          rw [chunk_alloc_grow H (f + 1) size nblock s h h1 hm,
            chunk_alloc_grow H f size nblock s h h1 hm]
          exact ih _ _ _ hne

/-- Fuel monotonicity of `__chunk_alloc` for any larger amount of fuel. -/
theorem chunk_alloc_fuel_add (H : Heap) (fuel size nblock : Nat) (s : State)
    (hne : __chunk_alloc H fuel size nblock s ≠ .spin) (extra : Nat) :
    __chunk_alloc H (fuel + extra) size nblock s = __chunk_alloc H fuel size nblock s := by
  induction extra with
  | zero => rfl
  | succ e ih =>
    have h1 : __chunk_alloc H (fuel + e) size nblock s ≠ .spin := by rw [ih]; exact hne
    have h2 := chunk_alloc_fuel_succ H (fuel + e) size nblock s h1
    rw [← ih, ← h2]
    rfl

/-- Fuel monotonicity of `__refill`. -/
theorem refill_fuel_add (H : Heap) (fuel n : Nat) (s : State)
    (hne : __refill H fuel n s ≠ .spin) (extra : Nat) :
    __refill H (fuel + extra) n s = __refill H fuel n s := by
  have hc : __chunk_alloc H fuel n (__get_blocks n) s ≠ .spin := by
    intro hspin
    apply hne
    unfold __refill
    rw [hspin]
  unfold __refill
  rw [chunk_alloc_fuel_add H fuel n (__get_blocks n) s hc extra]

/-- Fuel monotonicity of `allocate`. -/
theorem allocate_fuel_add (H : Heap) (fuel n : Nat) (s : State)
    (hne : allocate H fuel n s ≠ .spin) (extra : Nat) :
    allocate H (fuel + extra) n s = allocate H fuel n s := by
  unfold allocate at hne ⊢
  by_cases hn : n > ESmallObjectBytes
  · simp only [hn, if_true]
  · simp only [hn, if_false] at hne ⊢
    by_cases hr : s.free_list (__freelist_index n) = 0
    · simp only [hr, if_true] at hne ⊢
      exact refill_fuel_add H fuel _ s hne extra
    · simp only [hr, if_false]

/-! ## Arithmetic of the growth request -/

/-- Rounding adds less than the largest granularity. -/
theorem round_up_le (x : Nat) (hx : x + 128 ≤ SIZE_MOD) : __round_up x ≤ x + 127 := by
  rw [round_up_closed x hx]
  obtain ⟨k, _, hk7, hk⟩ := align_pow x
  have hle : 2 ^ k ≤ 2 ^ 7 := Nat.pow_le_pow_right (by decide) hk7
  have h7 : (2 : Nat) ^ 7 = 128 := by norm_num
  have hdiv := Nat.div_mul_le_self (x + __align x - 1) (__align x)
  rw [hk] at hdiv ⊢
  omega

/-- For a pooled request the growth size is computed without wrap-around. -/
theorem bytes_to_get_eq (size nblock : Nat) (s : State) (hneed : size * nblock ≤ 2048)
    (hh : s.heap_size < SIZE_MOD) :
    bytes_to_get size nblock s = 2 * (size * nblock) + __round_up (s.heap_size / 16) ∧
    bytes_to_get size nblock s < SIZE_MOD := by
  have hr := round_up_le (s.heap_size / 16) (by unfold SIZE_MOD at *; omega)
  unfold bytes_to_get uadd ushl umul
  unfold SIZE_MOD at *
  generalize size * nblock = need at *
  have e : (2 : Nat) ^ 4 = 16 := by norm_num
  rw [e]
  generalize __round_up (s.heap_size / 16) = r at *
  omega

/-- The pool size read by `__chunk_alloc` when the bounds are ordered and close. -/
theorem usub_of_le (a b : Nat) (h : a ≤ b) (hlt : b - a < SIZE_MOD) : usub b a = b - a := by
  unfold usub
  unfold SIZE_MOD at *
  omega

/-! ## The carver in states that satisfy the invariant -/

/-- In a state satisfying `Inv`, `__chunk_alloc` for a pooled request (`size * nblock ≤ 2048`)
finishes within two levels of recursion.  It either exits, which happens only when the heap
refuses the growth request, or returns a non-null pointer `c` and a count `k` of blocks with
`1 ≤ k ≤ nblock`, having moved `start_free` to `c + size * k` inside the pool; the pool it
carved from is either the one it found or the region just granted by the heap. -/
theorem chunk_alloc_inv (H : Heap) (fuel size nblock : Nat) (s : State) (hI : Inv s)
    (h1 : 1 ≤ size) (hnb : 1 ≤ nblock) (hneed : size * nblock ≤ 2048) :
    (∃ s1, __chunk_alloc H (fuel + 2) size nblock s = .exit 1 s1 ∧
      H s.log (bytes_to_get size nblock s) = 0) ∨
    (∃ c k s1, __chunk_alloc H (fuel + 2) size nblock s = .ret (c, k) s1 ∧
      c ≠ 0 ∧ 1 ≤ k ∧ k ≤ nblock ∧ s1.start_free = c + size * k ∧ Inv s1 ∧
      ((s1.log = s.log ∧ c = s.start_free ∧ s1.end_free = s.end_free) ∨
       (H s.log (bytes_to_get size nblock s) ≠ 0 ∧
        s1.log = s.log ++ [HeapEvent.malloc (bytes_to_get size nblock s)] ∧
        c = H s.log (bytes_to_get size nblock s) ∧
        s1.end_free = c + bytes_to_get size nblock s))) := by
  obtain ⟨hnull, hle, hlt, hsn, hh⟩ := hI
  have hsz : size ≤ size * nblock := Nat.le_mul_of_pos_right size hnb
  have hM : SIZE_MOD = 18446744073709551616 := rfl
  have hum : umul size nblock = size * nblock :=
    Nat.mod_eq_of_lt (by rw [hM]; omega)
  have hpool : usub s.end_free s.start_free = s.end_free - s.start_free :=
    usub_of_le _ _ hle hlt
  by_cases h : umul size nblock ≤ usub s.end_free s.start_free
  · -- the pool holds the whole request
    right
    refine ⟨s.start_free, nblock, _, chunk_alloc_full H (fuel + 1) size nblock s h, ?_,
      hnb, le_refl _, ?_, ?_, Or.inl ⟨rfl, rfl, rfl⟩⟩
    · intro h0
      have := hsn h0
      rw [hum, hpool] at h
      omega
    · rw [hum]
    · rw [hum, hpool] at h
      constructor
      · exact hnull
      · show s.start_free + umul size nblock ≤ s.end_free
        rw [hum]; omega
      · show s.end_free - (s.start_free + umul size nblock) < SIZE_MOD
        omega
      · show s.start_free + umul size nblock = 0 → s.end_free = 0
        rw [hum]; omega
      · exact hh
  · by_cases h2 : size ≤ usub s.end_free s.start_free
    · -- the pool holds some of the blocks
      right
      have hk1 : 1 ≤ usub s.end_free s.start_free / size :=
        (Nat.one_le_div_iff (by omega)).mpr h2
      have hk2 : usub s.end_free s.start_free / size < nblock := by
        apply (Nat.div_lt_iff_lt_mul (by omega)).mpr
        rw [hum] at h
        rw [Nat.mul_comm]
        omega
      have hk3 : size * (usub s.end_free s.start_free / size) ≤ usub s.end_free s.start_free :=
        Nat.mul_div_le _ _
      have hum1 : umul size (usub s.end_free s.start_free / size)
          = size * (usub s.end_free s.start_free / size) :=
        Nat.mod_eq_of_lt (by rw [hM]; rw [hpool] at hk3; rw [hM] at hlt; rw [hpool]; omega)
      have hk4 : 1 ≤ size * (usub s.end_free s.start_free / size) :=
        Nat.mul_pos (by omega) hk1
      refine ⟨s.start_free, usub s.end_free s.start_free / size, _,
        chunk_alloc_some H (fuel + 1) size nblock s h h2, ?_, hk1, Nat.le_of_lt hk2, ?_, ?_,
        Or.inl ⟨rfl, rfl, rfl⟩⟩
      · intro h0
        have := hsn h0
        rw [hpool] at h2
        omega
      · rw [hum1]
      · rw [hpool] at hk3 hk4 hum1
        rw [hpool]
        constructor
        · exact hnull
        · show s.start_free + umul size ((s.end_free - s.start_free) / size) ≤ s.end_free
          rw [hum1]; omega
        · show s.end_free - (s.start_free + umul size ((s.end_free - s.start_free) / size))
            < SIZE_MOD
          omega
        · show s.start_free + umul size ((s.end_free - s.start_free) / size) = 0 →
            s.end_free = 0
          rw [hum1]; omega
        · exact hh
    · by_cases hm : H s.log (bytes_to_get size nblock s) = 0
      · -- the heap refuses: the bucket of `size` is empty, the process exits
        left
        have hs : size ≤ ESmallObjectBytes := by unfold ESmallObjectBytes; omega
        exact ⟨_, chunk_alloc_exit H (fuel + 1) size nblock s h h2 hm hs (hnull _), hm⟩
      · -- the heap grants: the retry finds the whole request in the new pool
        right
        obtain ⟨hb, hblt⟩ := bytes_to_get_eq size nblock s hneed hh
        have hge : size * nblock ≤ bytes_to_get size nblock s := by omega
        have hpool1 : usub (grown (H s.log (bytes_to_get size nblock s)) size nblock s).end_free
            (grown (H s.log (bytes_to_get size nblock s)) size nblock s).start_free
            = bytes_to_get size nblock s := by
          show usub (H s.log (bytes_to_get size nblock s) + bytes_to_get size nblock s)
            (H s.log (bytes_to_get size nblock s)) = bytes_to_get size nblock s
          rw [usub_of_le _ _ (by omega) (by omega)]
          omega
        have hfull : umul size nblock ≤
            usub (grown (H s.log (bytes_to_get size nblock s)) size nblock s).end_free
              (grown (H s.log (bytes_to_get size nblock s)) size nblock s).start_free := by
          rw [hpool1, hum]; exact hge
        refine ⟨H s.log (bytes_to_get size nblock s), nblock,
          { grown (H s.log (bytes_to_get size nblock s)) size nblock s with
            start_free := (grown (H s.log (bytes_to_get size nblock s)) size nblock s).start_free
              + umul size nblock },
          ?_, hm, hnb, le_refl _, ?_, ?_, Or.inr ⟨hm, rfl, rfl, rfl⟩⟩
        · rw [chunk_alloc_grow H (fuel + 1) size nblock s h h2 hm,
            chunk_alloc_full H fuel size nblock _ hfull]
          rfl
        · show H s.log (bytes_to_get size nblock s) + umul size nblock = _
          rw [hum]
        · constructor
          · exact hnull
          · show H s.log (bytes_to_get size nblock s) + umul size nblock ≤
              H s.log (bytes_to_get size nblock s) + bytes_to_get size nblock s
            rw [hum]; omega
          · show H s.log (bytes_to_get size nblock s) + bytes_to_get size nblock s -
              (H s.log (bytes_to_get size nblock s) + umul size nblock) < SIZE_MOD
            omega
          · show H s.log (bytes_to_get size nblock s) + umul size nblock = 0 → _
            rw [hum]; omega
          · show uadd s.heap_size (bytes_to_get size nblock s) < SIZE_MOD
            exact Nat.mod_lt _ (by rw [hM]; omega)

/-- Bounds of the rounded size of a pooled request. -/
theorem round_up_bounds (b : Nat) (h2 : b ≤ 2048) :
    b ≤ __round_up b ∧ __round_up b ≤ 2048 := by
  rw [round_up_pooled b h2]
  unfold __align EAlign128 EAlign256 EAlign512 EAlign1024 EAlign2048
  split_ifs <;> omega

/-- A refill of a pooled size asks the carver for at most 2048 bytes, in at least one block. -/
theorem get_blocks_bounds (size : Nat) (h : size ≤ 2048) :
    1 ≤ __get_blocks size ∧ size * __get_blocks size ≤ 2048 := by
  unfold __get_blocks
  split_ifs <;> omega

/-- The invariant does not depend on the link memory. -/
theorem inv_with_mem {s : State} (h : Inv s) (m : Nat → Nat) : Inv { s with mem := m } :=
  ⟨h.heads_null, h.start_le, h.pool_lt, h.start_null, h.heap_lt⟩

/-- The invariant does not depend on the log of heap calls. -/
theorem inv_with_log {s : State} (h : Inv s) (l : List HeapEvent) : Inv { s with log := l } :=
  ⟨h.heads_null, h.start_le, h.pool_lt, h.start_null, h.heap_lt⟩

/-- `__refill` after a carver call that exited. -/
theorem refill_of_exit (H : Heap) (f n code : Nat) (s s1 : State)
    (he : __chunk_alloc H f n (__get_blocks n) s = .exit code s1) :
    __refill H f n s = .exit code s1 := by
  unfold __refill
  rw [he]

/-- `__refill` after a carver call that returned `k` blocks at `c`. -/
theorem refill_of_ret (H : Heap) (f n c k : Nat) (s s1 : State)
    (he : __chunk_alloc H f n (__get_blocks n) s = .ret (c, k) s1) :
    __refill H f n s =
      if k = 1 then .ret c s1
      else .ret c { s1 with mem := __refill_loop n (usub k 1 - 1) (c + n) s1.mem } := by
  unfold __refill
  rw [he]

/-- `allocate` of a pooled size whose bucket head is null is a refill of the rounded size. -/
theorem allocate_of_null (H : Heap) (f n : Nat) (s : State) (hn : n ≤ 2048)
    (h0 : s.free_list (__freelist_index n) = 0) :
    allocate H f n s = __refill H f (__round_up n) s := by
  have hn1 : ¬ n > ESmallObjectBytes := by unfold ESmallObjectBytes; omega
  unfold allocate
  simp only [hn1, if_false, h0, if_true]

/-- In a state satisfying `Inv`, `allocate n` for a pooled size finishes with fuel 2.  It either
exits, which happens only when the heap refuses the growth request, or returns a non-null
pointer `p` with `p + __round_up n ≤ start_free` afterwards, the invariant still holding; the
pool the block was carved from ends at the final `end_free` and is either the pool found in `s`
or the region just granted by the heap. -/
theorem allocate_small_inv (H : Heap) (fuel n : Nat) (s : State) (hI : Inv s)
    (h1 : 1 ≤ n) (h2 : n ≤ 2048) :
    (∃ s1 b, allocate H (fuel + 2) n s = .exit 1 s1 ∧ H s.log b = 0) ∨
    (∃ p s1, allocate H (fuel + 2) n s = .ret p s1 ∧
      p ≠ 0 ∧ p + __round_up n ≤ s1.start_free ∧ Inv s1 ∧
      ((s1.log = s.log ∧ p = s.start_free ∧ s1.end_free = s.end_free) ∨
       (∃ b, s1.log = s.log ++ [HeapEvent.malloc b] ∧ p = H s.log b ∧
        s1.end_free = p + b))) := by
  obtain ⟨hr1, hr2⟩ := round_up_bounds n h2
  obtain ⟨hg1, hg2⟩ := get_blocks_bounds (__round_up n) hr2
  rw [allocate_of_null H (fuel + 2) n s h2 (hI.heads_null _)]
  rcases chunk_alloc_inv H fuel (__round_up n) (__get_blocks (__round_up n)) s hI
      (by omega) hg1 hg2 with ⟨s1, he, hz⟩ | ⟨c, k, s1, he, hc, hk1, hk2, hst, hI1, hreg⟩
  · left
    exact ⟨s1, _, refill_of_exit H _ _ _ _ _ he, hz⟩
  · right
    rw [refill_of_ret H _ _ _ _ _ _ he]
    have hsize : __round_up n ≤ __round_up n * k := Nat.le_mul_of_pos_right _ hk1
    have hreg1 : (s1.log = s.log ∧ c = s.start_free ∧ s1.end_free = s.end_free) ∨
        (∃ b, s1.log = s.log ++ [HeapEvent.malloc b] ∧ c = H s.log b ∧
          s1.end_free = c + b) := by
      rcases hreg with h | ⟨_, hl, hcm, hend⟩
      · exact Or.inl h
      · exact Or.inr ⟨_, hl, hcm, hend⟩
    by_cases hk : k = 1
    · rw [if_pos hk]
      exact ⟨c, s1, rfl, hc, by omega, hI1, hreg1⟩
    · rw [if_neg hk]
      exact ⟨c, _, rfl, hc, by show c + __round_up n ≤ s1.start_free; omega,
        inv_with_mem hI1 _, hreg1⟩

/-- `deallocate` keeps the invariant: it writes one link word or logs one `free`. -/
theorem deallocate_inv (p n : Nat) (s : State) (hI : Inv s) : Inv (deallocate p n s) := by
  unfold deallocate
  split_ifs
  · exact inv_with_log hI _
  · exact inv_with_mem hI _

/-- A returning `allocate` keeps the invariant, whatever the fuel it was run with. -/
theorem allocate_inv (H : Heap) (fuel n p : Nat) (s s1 : State) (hI : Inv s) (h1 : 1 ≤ n)
    (he : allocate H fuel n s = .ret p s1) : Inv s1 := by
  by_cases hn : n > ESmallObjectBytes
  · unfold allocate at he
    simp only [hn, if_true] at he
    injection he with _ hs
    rw [← hs]
    exact inv_with_log hI _
  · have hne : allocate H fuel n s ≠ .spin := by rw [he]; intro h; cases h
    have hadd := allocate_fuel_add H fuel n s hne 2
    have e : fuel + 2 = fuel + 2 := rfl
    rcases allocate_small_inv H fuel n s hI h1 (by unfold ESmallObjectBytes at hn; omega) with
      ⟨s2, _, hx, _⟩ | ⟨q, s2, hx, _, _, hI2, _⟩
    · rw [hadd, he] at hx
      cases hx
    · rw [hadd, he] at hx
      injection hx with _ hs
      rw [hs]
      exact hI2

/-- The static initialisation satisfies the invariant. -/
theorem init_inv : Inv alloc.init :=
  ⟨fun _ => rfl, Nat.le_refl _, by show 0 - 0 < 18446744073709551616; omega, fun _ => rfl,
    by show 0 < 18446744073709551616; omega⟩

/-- The body of `reallocate` is `allocate` run in the state left by `deallocate`. -/
theorem reallocate_eq (H : Heap) (fuel p old_size new_size : Nat) (s : State) :
    reallocate H fuel p old_size new_size s
      = allocate H fuel new_size (deallocate p old_size s) := by
  unfold reallocate
  dsimp only
  cases allocate H fuel new_size (deallocate p old_size s) <;> rfl

/-- Every reachable state satisfies the invariant. -/
theorem reachable_inv (H : Heap) (s : State) (h : Reachable H s) : Inv s := by
  induction h with
  | init => exact init_inv
  | allocate _ h1 he ih => exact allocate_inv H _ _ _ _ _ ih h1 he
  | deallocate _ _ _ ih => exact deallocate_inv _ _ _ ih
  | @reallocate s0 s1 fuel p old_size new_size q _ _ _ h1 he ih =>
    rw [reallocate_eq] at he
    exact allocate_inv H _ _ _ _ _ (deallocate_inv p old_size s0 ih) h1 he

/-! ## Heap traffic of a pooled request in an arbitrary state -/

/-- In any state whose `heap_size` is a `size_t` value, `__chunk_alloc` for a pooled request
finishes within two levels of recursion (by return or exit) and issues at most one heap
request, of `bytes_to_get` bytes. -/
theorem chunk_alloc_log (H : Heap) (fuel size nblock : Nat) (s : State)
    (hnb : 1 ≤ nblock) (hneed : size * nblock ≤ 2048)
    (hh : s.heap_size < SIZE_MOD) :
    ∃ s1, (__chunk_alloc H (fuel + 2) size nblock s).state? = some s1 ∧
      (s1.log = s.log ∨
        s1.log = s.log ++ [HeapEvent.malloc (bytes_to_get size nblock s)]) := by
  have hsz : size ≤ size * nblock := Nat.le_mul_of_pos_right size hnb
  have hM : SIZE_MOD = 18446744073709551616 := rfl
  have hum : umul size nblock = size * nblock := Nat.mod_eq_of_lt (by rw [hM]; omega)
  by_cases h : umul size nblock ≤ usub s.end_free s.start_free
  · rw [chunk_alloc_full H (fuel + 1) size nblock s h]
    exact ⟨_, rfl, Or.inl rfl⟩
  · by_cases h2 : size ≤ usub s.end_free s.start_free
    · rw [chunk_alloc_some H (fuel + 1) size nblock s h h2]
      exact ⟨_, rfl, Or.inl rfl⟩
    · by_cases hm : H s.log (bytes_to_get size nblock s) = 0
      · have hs : size ≤ ESmallObjectBytes := by unfold ESmallObjectBytes; omega
        by_cases hp : s.free_list (__freelist_index size) = 0
        · rw [chunk_alloc_exit H (fuel + 1) size nblock s h h2 hm hs hp]
          exact ⟨_, rfl, Or.inr rfl⟩
        · rw [chunk_alloc_salvage H (fuel + 1) size nblock s h h2 hm hs hp]
          have hpool : usub (adopted (s.free_list (__freelist_index size)) size nblock s).end_free
              (adopted (s.free_list (__freelist_index size)) size nblock s).start_free = size := by
            show usub (s.free_list (__freelist_index size) + size)
              (s.free_list (__freelist_index size)) = size
            rw [usub_of_le _ _ (by omega) (by rw [hM]; omega)]
            omega
          by_cases hf : umul size nblock ≤ size
          · rw [chunk_alloc_full H fuel size nblock _ (by rw [hpool]; exact hf)]
            exact ⟨_, rfl, Or.inr rfl⟩
          · rw [chunk_alloc_some H fuel size nblock _ (by rw [hpool]; exact hf)
              (by rw [hpool])]
            exact ⟨_, rfl, Or.inr rfl⟩
      · obtain ⟨hb, hblt⟩ := bytes_to_get_eq size nblock s hneed hh
        have hpool : usub (grown (H s.log (bytes_to_get size nblock s)) size nblock s).end_free
            (grown (H s.log (bytes_to_get size nblock s)) size nblock s).start_free
            = bytes_to_get size nblock s := by
          show usub (H s.log (bytes_to_get size nblock s) + bytes_to_get size nblock s)
            (H s.log (bytes_to_get size nblock s)) = bytes_to_get size nblock s
          rw [usub_of_le _ _ (by omega) (by omega)]
          omega
        rw [chunk_alloc_grow H (fuel + 1) size nblock s h h2 hm,
          chunk_alloc_full H fuel size nblock _ (by rw [hpool, hum]; omega)]
        exact ⟨_, rfl, Or.inr rfl⟩

/-- `__refill` leaves the log of heap calls as the carver left it. -/
theorem refill_log (H : Heap) (fuel n : Nat) (s : State) (h2 : n ≤ 2048)
    (hh : s.heap_size < SIZE_MOD) :
    ∃ s1, (__refill H (fuel + 2) n s).state? = some s1 ∧
      (s1.log = s.log ∨
        s1.log = s.log ++ [HeapEvent.malloc (bytes_to_get n (__get_blocks n) s)]) := by
  obtain ⟨hg1, hg2⟩ := get_blocks_bounds n h2
  obtain ⟨s1, hst, hlog⟩ := chunk_alloc_log H fuel n (__get_blocks n) s hg1 hg2 hh
  generalize hf : fuel + 2 = f at hst
  cases hc : __chunk_alloc H f n (__get_blocks n) s with
  | spin => rw [hc] at hst; cases hst
  | exit code s2 =>
    rw [hc] at hst
    rw [refill_of_exit H f n code s s2 hc]
    exact ⟨s1, hst, hlog⟩
  | ret v s2 =>
    obtain ⟨c, k⟩ := v
    rw [hc] at hst
    have e : s2 = s1 := by injection hst
    rw [refill_of_ret H f n c k s s2 hc]
    by_cases hk : k = 1
    · rw [if_pos hk]
      exact ⟨s1, by rw [← e]; rfl, hlog⟩
    · rw [if_neg hk]
      exact ⟨_, rfl, by rw [e]; exact hlog⟩

/-! ## The public operations -/

/-- C1, evaluated on the code: from the initial state, with a heap that grants every
request, `p = allocate(64); deallocate(p, 64); q = allocate(64)` gives `p = 4096` and
`q = 4608`: the freed block is not handed out again. -/
theorem roundtrip_returns_fresh_block :
    roundtrip bumpHeap 2 64 alloc.init = some (4096, 4608) ∧ (4608 : Nat) ≠ 4096 := by
  decide

/-- C2, evaluated on the code: after `p = allocate(64)` in the initial state, which
returns 4096, and `deallocate(p, 64)`, the stored head of bucket `__freelist_index 64 = 7` is
still null, not `p`; the link word of `p` holds the old head (null). -/
theorem deallocate_leaves_stored_head :
    (allocThenFree bumpHeap 2 64 alloc.init).map
        (fun r => (r.1, r.2.free_list (__freelist_index 64), r.2.mem r.1))
      = some (4096, 0, 0) := by
  decide

/-- C3, evaluated on the code: in a state whose bucket 7 holds the chain
`4096 → 8192 → null`, `allocate(64)` returns the head 4096 without any heap request, but the
stored head of the bucket is still 4096 afterwards, not the successor 8192. -/
theorem allocate_fast_path_keeps_stored_head :
    __freelist_index 64 = 7 ∧
    (allocate bumpHeap 2 64 stateWithBucket).value? = some 4096 ∧
    (allocate bumpHeap 2 64 stateWithBucket).state?.map
        (fun s => (s.free_list 7, s.mem 4096, s.log, s.start_free, s.end_free))
      = some (4096, 8192, [], 0, 0) := by
  decide

/-- C4: a request above 2048 bytes is forwarded to the heap: `allocate n` issues exactly one
heap request, of `n` bytes, returns the answer of the heap unchanged (null included) and
leaves the pool bounds, `heap_size`, the bucket heads and the link memory as they were.  At
`n = 2048` the result is that of the bucket/refill path (the head of bucket 47 when it is not
null, `__refill 2048` otherwise) and the only heap request that path can issue is a growth
request of at least 4096 bytes, so no request of 2048 bytes is made. -/
theorem allocate_large_bypasses_pool (H : Heap) (fuel fuel2 n : Nat) (s : State)
    (hn : 2048 < n) (hf : 2 ≤ fuel2) (hh : s.heap_size < SIZE_MOD) :
    (∃ s1, allocate H fuel n s = .ret (H s.log n) s1 ∧
      s1.log = s.log ++ [HeapEvent.malloc n] ∧
      s1.start_free = s.start_free ∧ s1.end_free = s.end_free ∧
      s1.heap_size = s.heap_size ∧ s1.free_list = s.free_list ∧ s1.mem = s.mem) ∧
    (__freelist_index 2048 = 47 ∧ __round_up 2048 = 2048 ∧
      allocate H fuel2 2048 s =
        if s.free_list 47 = 0 then __refill H fuel2 2048 s else .ret (s.free_list 47) s) ∧
    (∃ s1, (allocate H fuel2 2048 s).state? = some s1 ∧
      (s1.log = s.log ∨ ∃ b, 4096 ≤ b ∧ s1.log = s.log ++ [HeapEvent.malloc b])) := by
  have hidx : __freelist_index 2048 = 47 := by decide
  have hru : __round_up 2048 = 2048 := by decide
  have hsmall : ¬ 2048 > ESmallObjectBytes := by decide
  have hal : allocate H fuel2 2048 s =
      if s.free_list 47 = 0 then __refill H fuel2 2048 s else .ret (s.free_list 47) s := by
    unfold allocate
    simp only [hsmall, if_false, hidx, hru]
  refine ⟨?_, ⟨hidx, hru, hal⟩, ?_⟩
  · have hbig : n > ESmallObjectBytes := by unfold ESmallObjectBytes; omega
    refine ⟨{ s with log := s.log ++ [HeapEvent.malloc n] }, ?_, rfl, rfl, rfl, rfl, rfl, rfl⟩
    unfold allocate
    simp only [hbig, if_true]
  · rw [hal]
    by_cases h0 : s.free_list 47 = 0
    · rw [if_pos h0]
      obtain ⟨f, rfl⟩ : ∃ f, fuel2 = f + 2 := ⟨fuel2 - 2, by omega⟩
      obtain ⟨s1, hst, hlog⟩ := refill_log H f 2048 s (by decide) hh
      refine ⟨s1, hst, ?_⟩
      rcases hlog with h | h
      · exact Or.inl h
      · refine Or.inr ⟨_, ?_, h⟩
        have hg : __get_blocks 2048 = 1 := by decide
        have hb := (bytes_to_get_eq 2048 (__get_blocks 2048) s (by rw [hg]) hh).1
        rw [hg] at hb ⊢
        omega
    · rw [if_neg h0]
      exact ⟨s, rfl, Or.inl rfl⟩

/-- Witness of C4 at `n = 3000` in the initial state. -/
theorem allocate_large_bypasses_pool_witness :
    (2048 < 3000 ∧ 2 ≤ 2 ∧ alloc.init.heap_size < SIZE_MOD) ∧
    (∃ s1, allocate bumpHeap 0 3000 alloc.init = .ret (bumpHeap alloc.init.log 3000) s1 ∧
      s1.log = alloc.init.log ++ [HeapEvent.malloc 3000] ∧
      s1.start_free = alloc.init.start_free ∧ s1.end_free = alloc.init.end_free ∧
      s1.heap_size = alloc.init.heap_size ∧ s1.free_list = alloc.init.free_list ∧
      s1.mem = alloc.init.mem) ∧
    (__freelist_index 2048 = 47 ∧ __round_up 2048 = 2048 ∧
      allocate bumpHeap 2 2048 alloc.init =
        if alloc.init.free_list 47 = 0 then __refill bumpHeap 2 2048 alloc.init
        else .ret (alloc.init.free_list 47) alloc.init) ∧
    (∃ s1, (allocate bumpHeap 2 2048 alloc.init).state? = some s1 ∧
      (s1.log = alloc.init.log ∨
        ∃ b, 4096 ≤ b ∧ s1.log = alloc.init.log ++ [HeapEvent.malloc b])) :=
  ⟨⟨by decide, by decide, by show 0 < 18446744073709551616; omega⟩,
    allocate_large_bypasses_pool bumpHeap 0 2 3000 alloc.init (by decide) (by decide)
      (by show 0 < 18446744073709551616; omega)⟩

/-- C5: for every heap, every reachable state and every `n` in `1..2048`, `allocate n` (run
with fuel 2 or more) either ends the process through `std::exit(1)` or returns a non-null
pointer; it never returns null. -/
theorem allocate_small_never_null (H : Heap) (s : State) (fuel n : Nat)
    (hs : Reachable H s) (h1 : 1 ≤ n) (h2 : n ≤ 2048) (hf : 2 ≤ fuel) :
    (∃ s1, allocate H fuel n s = .exit 1 s1) ∨
    (∃ p s1, allocate H fuel n s = .ret p s1 ∧ p ≠ 0) := by
  obtain ⟨f, rfl⟩ : ∃ f, fuel = f + 2 := ⟨fuel - 2, by omega⟩
  rcases allocate_small_inv H f n s (reachable_inv H s hs) h1 h2 with
    ⟨s1, _, he, _⟩ | ⟨p, s1, he, hp, _⟩
  · exact Or.inl ⟨s1, he⟩
  · exact Or.inr ⟨p, s1, he, hp⟩

/-- Witness of C5: in the initial state, against a heap that refuses everything,
`allocate(64)` exits. -/
theorem allocate_small_never_null_witness :
    (Reachable emptyHeap alloc.init ∧ 1 ≤ 64 ∧ 64 ≤ 2048 ∧ 2 ≤ 2) ∧
    ((∃ s1, allocate emptyHeap 2 64 alloc.init = .exit 1 s1) ∨
     (∃ p s1, allocate emptyHeap 2 64 alloc.init = .ret p s1 ∧ p ≠ 0)) :=
  ⟨⟨Reachable.init, by decide, by decide, by decide⟩,
    allocate_small_never_null emptyHeap alloc.init 2 64 Reachable.init (by decide) (by decide)
      (by decide)⟩

/-- C6: when the heap grants every request, `allocate n` for `n` in `1..2048` in a reachable
state returns a non-null pointer `p`; the `__round_up n` bytes from `p` lie inside the pool
region `[rs, re)` the block was carved from, which is either the pool found on entry or the
region `[m, m + b)` just granted by the heap for the single growth request of `b` bytes; and
afterwards `start_free` is at least `p + __round_up n` (and at most `end_free = re`). -/
theorem allocate_small_usable (H : Heap) (s : State) (fuel n : Nat)
    (hH : ∀ log b, H log b ≠ 0) (hs : Reachable H s) (h1 : 1 ≤ n) (h2 : n ≤ 2048)
    (hf : 2 ≤ fuel) :
    ∃ p s1 rs re, allocate H fuel n s = .ret p s1 ∧ p ≠ 0 ∧
      rs ≤ p ∧ p + __round_up n ≤ re ∧
      p + __round_up n ≤ s1.start_free ∧ s1.start_free ≤ s1.end_free ∧ s1.end_free = re ∧
      ((rs = s.start_free ∧ re = s.end_free ∧ s1.log = s.log) ∨
       (∃ b, s1.log = s.log ++ [HeapEvent.malloc b] ∧ rs = H s.log b ∧ re = rs + b)) := by
  obtain ⟨f, rfl⟩ : ∃ f, fuel = f + 2 := ⟨fuel - 2, by omega⟩
  rcases allocate_small_inv H f n s (reachable_inv H s hs) h1 h2 with
    ⟨s1, b, _, hz⟩ | ⟨p, s1, he, hp, hst, hI1, hreg⟩
  · exact absurd hz (hH _ _)
  · have hle := hI1.start_le
    rcases hreg with ⟨hl, hps, hend⟩ | ⟨b, hl, hpm, hend⟩
    · exact ⟨p, s1, s.start_free, s.end_free, he, hp, by omega, by omega, hst, hle, hend,
        Or.inl ⟨rfl, rfl, hl⟩⟩
    · exact ⟨p, s1, p, p + b, he, hp, Nat.le_refl _, by omega, hst, hle, hend,
        Or.inr ⟨b, hl, hpm, rfl⟩⟩

/-- Witness of C6: the first `allocate(64)`, against a heap that grants every request. -/
theorem allocate_small_usable_witness :
    ((∀ log b, bumpHeap log b ≠ 0) ∧ Reachable bumpHeap alloc.init) ∧
    ∃ p s1 rs re, allocate bumpHeap 2 64 alloc.init = .ret p s1 ∧ p ≠ 0 ∧
      rs ≤ p ∧ p + __round_up 64 ≤ re ∧
      p + __round_up 64 ≤ s1.start_free ∧ s1.start_free ≤ s1.end_free ∧ s1.end_free = re ∧
      ((rs = alloc.init.start_free ∧ re = alloc.init.end_free ∧ s1.log = alloc.init.log) ∨
       (∃ b, s1.log = alloc.init.log ++ [HeapEvent.malloc b] ∧
        rs = bumpHeap alloc.init.log b ∧ re = rs + b)) :=
  ⟨⟨fun _ _ => by unfold bumpHeap; omega, Reachable.init⟩,
    allocate_small_usable bumpHeap alloc.init 2 64 (fun _ _ => by unfold bumpHeap; omega)
      Reachable.init (by decide) (by decide) (by decide)⟩

/-- C7: `reallocate(p, old_size, new_size)` has the same outcome (returned pointer and final
state: pool bounds, `heap_size`, bucket heads, link memory, heap calls) as
`deallocate(p, old_size)` followed by `allocate(new_size)`. -/
theorem reallocate_refines_spec (H : Heap) (fuel p old_size new_size : Nat) (s : State) :
    reallocate H fuel p old_size new_size s = reallocate_spec H fuel p old_size new_size s := by
  unfold reallocate_spec
  unfold reallocate
  dsimp only
  cases allocate H fuel new_size (deallocate p old_size s) <;> rfl

/-! ## Size classes and batch sizes -/

/-- The five ranges of the pooled sizes with their granularity and bucket index. -/
theorem size_class_cases (b : Nat) (h1 : 1 ≤ b) (h2 : b ≤ 2048) :
    (b ≤ 128 ∧ __align b = 8 ∧ __freelist_index b = (b + 7) / 8 - 1) ∨
    (129 ≤ b ∧ b ≤ 256 ∧ __align b = 16 ∧ __freelist_index b = 15 + (b - 113) / 16) ∨
    (257 ≤ b ∧ b ≤ 512 ∧ __align b = 32 ∧ __freelist_index b = 23 + (b - 225) / 32) ∨
    (513 ≤ b ∧ b ≤ 1024 ∧ __align b = 64 ∧ __freelist_index b = 31 + (b - 449) / 64) ∨
    (1025 ≤ b ∧ __align b = 128 ∧ __freelist_index b = 39 + (b - 897) / 128) := by
  rw [freelist_index_pooled b h1 h2]
  unfold __align EAlign128 EAlign256 EAlign512 EAlign1024 EAlign2048
  by_cases c1 : b ≤ 128
  · left
    refine ⟨c1, ?_, ?_⟩
    · rw [if_pos (by omega), if_pos (by omega), if_pos c1]
    · rw [if_pos c1]
  · by_cases c2 : b ≤ 256
    · right; left
      refine ⟨by omega, c2, ?_, ?_⟩
      · rw [if_pos (by omega), if_pos c2, if_neg c1]
      · rw [if_neg c1, if_pos c2]
    · by_cases c3 : b ≤ 512
      · right; right; left
        refine ⟨by omega, c3, ?_, ?_⟩
        · rw [if_pos c3, if_neg c2]
        · rw [if_neg c1, if_neg c2, if_pos c3]
      · by_cases c4 : b ≤ 1024
        · right; right; right; left
          refine ⟨by omega, c4, ?_, ?_⟩
          · rw [if_neg c3, if_pos c4]
          · rw [if_neg c1, if_neg c2, if_neg c3, if_pos c4]
        · right; right; right; right
          refine ⟨by omega, ?_, ?_⟩
          · rw [if_neg c3, if_neg c4]
          · rw [if_neg c1, if_neg c2, if_neg c3, if_neg c4]

/-- On the pooled range the rounded size and the granularity are those of the bucket the size
is mapped to, in the layout of the specification. -/
theorem round_up_class (b : Nat) (h1 : 1 ≤ b) (h2 : b ≤ 2048) :
    __round_up b = class_size_spec (__freelist_index b) ∧
    __align b = granularity_spec (__freelist_index b) := by
  rw [round_up_pooled b h2]
  rcases size_class_cases b h1 h2 with ⟨c, ha, hi⟩ | ⟨c, d, ha, hi⟩ | ⟨c, d, ha, hi⟩ |
    ⟨c, d, ha, hi⟩ | ⟨c, ha, hi⟩ <;>
  · rw [ha, hi]
    unfold class_size_spec granularity_spec
    constructor
    · split_ifs <;> omega
    · split_ifs <;> omega

/-- C11: for `a`, `b` in `1..2048`, `__freelist_index a = __freelist_index b` exactly when
`__round_up a = __round_up b`; rounding does not change the bucket; and the table has the
layout of the specification: the rounded size and the granularity of `b` are those of bucket
`__freelist_index b`, where buckets `0..15` have granularity 8 and serve the sizes `1..128`,
and buckets `16..23`, `24..31`, `32..39`, `40..47` have granularity 16, 32, 64, 128 and serve
`129..256`, `257..512`, `513..1024`, `1025..2048`. -/
theorem buckets_are_size_classes (a b : Nat) (ha1 : 1 ≤ a) (ha2 : a ≤ 2048) (hb1 : 1 ≤ b)
    (hb2 : b ≤ 2048) :
    (__freelist_index a = __freelist_index b ↔ __round_up a = __round_up b) ∧
    __freelist_index (__round_up b) = __freelist_index b ∧
    __round_up b = class_size_spec (__freelist_index b) ∧
    __align b = granularity_spec (__freelist_index b) ∧
    (b ≤ 128 ↔ __freelist_index b < 16) ∧
    (129 ≤ b ∧ b ≤ 256 ↔ 16 ≤ __freelist_index b ∧ __freelist_index b < 24) ∧
    (257 ≤ b ∧ b ≤ 512 ↔ 24 ≤ __freelist_index b ∧ __freelist_index b < 32) ∧
    (513 ≤ b ∧ b ≤ 1024 ↔ 32 ≤ __freelist_index b ∧ __freelist_index b < 40) ∧
    (1025 ≤ b ↔ 40 ≤ __freelist_index b ∧ __freelist_index b < 48) := by
  have hca := (round_up_class a ha1 ha2).1
  have hcb := round_up_class b hb1 hb2
  have hrb := round_up_bounds b hb2
  have hra := round_up_bounds a ha2
  have hidem : ∀ c, 1 ≤ c → c ≤ 2048 → __freelist_index (__round_up c) = __freelist_index c := by
    intro c hc1 hc2
    have hrc := round_up_bounds c hc2
    have e := round_up_pooled c hc2
    rcases size_class_cases c hc1 hc2 with ⟨u, ha, hi⟩ | ⟨u, v, ha, hi⟩ | ⟨u, v, ha, hi⟩ |
      ⟨u, v, ha, hi⟩ | ⟨u, ha, hi⟩ <;>
    · rw [ha] at e
      rw [hi, freelist_index_pooled _ (by omega) hrc.2, e]
      split_ifs <;> omega
  refine ⟨⟨?_, ?_⟩, hidem b hb1 hb2, hcb.1, hcb.2, ?_, ?_, ?_, ?_, ?_⟩
  · intro h
    rw [hca, hcb.1, h]
  · intro h
    rw [← hidem a ha1 ha2, ← hidem b hb1 hb2, h]
  all_goals
    rcases size_class_cases b hb1 hb2 with ⟨u, _, hi⟩ | ⟨u, v, _, hi⟩ | ⟨u, v, _, hi⟩ |
      ⟨u, v, _, hi⟩ | ⟨u, _, hi⟩ <;>
    · rw [hi]
      omega

/-- Witness of C11 at the sizes 129 and 144, which share bucket 16 and the rounded size 144. -/
theorem buckets_are_size_classes_witness :
    (1 ≤ 129 ∧ 129 ≤ 2048 ∧ 1 ≤ 144 ∧ 144 ≤ 2048) ∧
    (__freelist_index 129 = __freelist_index 144 ↔ __round_up 129 = __round_up 144) ∧
    __freelist_index (__round_up 144) = __freelist_index 144 ∧
    __round_up 144 = class_size_spec (__freelist_index 144) ∧
    __align 144 = granularity_spec (__freelist_index 144) ∧
    (144 ≤ 128 ↔ __freelist_index 144 < 16) ∧
    (129 ≤ 144 ∧ 144 ≤ 256 ↔ 16 ≤ __freelist_index 144 ∧ __freelist_index 144 < 24) ∧
    (257 ≤ 144 ∧ 144 ≤ 512 ↔ 24 ≤ __freelist_index 144 ∧ __freelist_index 144 < 32) ∧
    (513 ≤ 144 ∧ 144 ≤ 1024 ↔ 32 ≤ __freelist_index 144 ∧ __freelist_index 144 < 40) ∧
    (1025 ≤ 144 ↔ 40 ≤ __freelist_index 144 ∧ __freelist_index 144 < 48) :=
  ⟨by decide, buckets_are_size_classes 129 144 (by decide) (by decide) (by decide) (by decide)⟩

/-- C13, the claim fails at size 1024 (and at every size in `513..1024`): the specification's
table gives the batch size 1, `__get_blocks` gives 2. -/
theorem get_blocks_differs_from_spec :
    (1 ≤ 1024 ∧ 1024 ≤ 2048 ∧ 512 < 1024) ∧
    preferred_block_count_spec 1024 = 1 ∧ __get_blocks 1024 = 2 ∧
    ¬ (∀ s, 1 ≤ s → s ≤ 2048 → __get_blocks s = preferred_block_count_spec s) := by
  refine ⟨by decide, by decide, by decide, ?_⟩
  intro h
  have := h 1024 (by decide) (by decide)
  revert this
  decide

/-- C13 as amended: `__get_blocks s` is 8 when `s ≤ 128`, 4 when `128 < s ≤ 256`, 2 when
`256 < s ≤ 1024` and 1 when `s > 1024`. -/
theorem get_blocks_table (s : Nat) :
    __get_blocks s =
      if s ≤ 128 then 8 else if s ≤ 256 then 4 else if s ≤ 1024 then 2 else 1 := by
  unfold __get_blocks
  split_ifs <;> first | rfl | omega

/-! ## The carver in an arbitrary state, without overflow -/

/-- The growth request when `2 * need_bytes + __round_up (heap_size / 16)` fits `size_t`. -/
theorem bytes_to_get_fits (size nblock : Nat) (s : State)
    (hov : 2 * (size * nblock) + __round_up (s.heap_size / 16) < SIZE_MOD) :
    bytes_to_get size nblock s = 2 * (size * nblock) + __round_up (s.heap_size / 16) := by
  unfold bytes_to_get uadd ushl umul
  unfold SIZE_MOD at *
  have e : (2 : Nat) ^ 4 = 16 := by norm_num
  rw [e]
  generalize size * nblock = need at *
  generalize __round_up (s.heap_size / 16) = r at *
  omega

/-- All the ways a call of `__chunk_alloc` can go, for `size ≥ 1`, `nblock ≥ 1` and a growth
request that fits `size_t`, with the outcome in each: the two cases served from the pool, the
granted growth followed by a full retry, the adoption of the head of the bucket of `size`
followed by a retry served from the adopted block, the exit, and (for `size > 2048` with a
refused request) the retry on the pool `[0, bytes_to_get)`.  Two levels of recursion are
enough in every case. -/
theorem chunk_alloc_cases (H : Heap) (fuel size nblock : Nat) (s : State)
    (h1 : 1 ≤ size) (hnb : 1 ≤ nblock)
    (hov : 2 * (size * nblock) + __round_up (s.heap_size / 16) < SIZE_MOD) :
    (umul size nblock ≤ usub s.end_free s.start_free ∧
      __chunk_alloc H (fuel + 2) size nblock s =
        .ret (s.start_free, nblock)
          { s with start_free := s.start_free + size * nblock }) ∨
    (¬ umul size nblock ≤ usub s.end_free s.start_free ∧
      size ≤ usub s.end_free s.start_free ∧
      __chunk_alloc H (fuel + 2) size nblock s =
        .ret (s.start_free, usub s.end_free s.start_free / size)
          { s with start_free :=
              s.start_free + size * (usub s.end_free s.start_free / size) }) ∨
    (¬ size ≤ usub s.end_free s.start_free ∧ H s.log (bytes_to_get size nblock s) ≠ 0 ∧
      __chunk_alloc H (fuel + 2) size nblock s =
        .ret (H s.log (bytes_to_get size nblock s), nblock)
          { grown (H s.log (bytes_to_get size nblock s)) size nblock s with
            start_free := H s.log (bytes_to_get size nblock s) + size * nblock }) ∨
    (¬ size ≤ usub s.end_free s.start_free ∧ H s.log (bytes_to_get size nblock s) = 0 ∧
      size ≤ ESmallObjectBytes ∧ s.free_list (__freelist_index size) ≠ 0 ∧
      ∃ k, 1 ≤ k ∧ k ≤ nblock ∧
        __chunk_alloc H (fuel + 2) size nblock s =
          .ret (s.free_list (__freelist_index size), k)
            { adopted (s.free_list (__freelist_index size)) size nblock s with
              start_free := s.free_list (__freelist_index size) + size * k }) ∨
    (¬ size ≤ usub s.end_free s.start_free ∧ H s.log (bytes_to_get size nblock s) = 0 ∧
      size ≤ ESmallObjectBytes ∧ s.free_list (__freelist_index size) = 0 ∧
      __chunk_alloc H (fuel + 2) size nblock s = .exit 1 (exhausted size nblock s)) ∨
    (¬ size ≤ usub s.end_free s.start_free ∧ H s.log (bytes_to_get size nblock s) = 0 ∧
      ¬ size ≤ ESmallObjectBytes ∧
      __chunk_alloc H (fuel + 2) size nblock s =
        .ret (0, nblock) { grown 0 size nblock s with start_free := 0 + size * nblock }) := by
  have hsz : size ≤ size * nblock := Nat.le_mul_of_pos_right size hnb
  have hM : SIZE_MOD = 18446744073709551616 := rfl
  have hb := bytes_to_get_fits size nblock s hov
  have hov1 : 2 * (size * nblock) + __round_up (s.heap_size / 16) < 18446744073709551616 := hov
  have hum : umul size nblock = size * nblock := Nat.mod_eq_of_lt (by rw [hM]; omega)
  have hpoolM : usub s.end_free s.start_free < 18446744073709551616 :=
    Nat.mod_lt _ (by rw [hM]; omega)
  by_cases h : umul size nblock ≤ usub s.end_free s.start_free
  · left
    refine ⟨h, ?_⟩
    rw [chunk_alloc_full H (fuel + 1) size nblock s h, hum]
  · by_cases h2 : size ≤ usub s.end_free s.start_free
    · right; left
      refine ⟨h, h2, ?_⟩
      have hk3 : size * (usub s.end_free s.start_free / size) ≤ usub s.end_free s.start_free :=
        Nat.mul_div_le _ _
      have hum1 : umul size (usub s.end_free s.start_free / size)
          = size * (usub s.end_free s.start_free / size) :=
        Nat.mod_eq_of_lt (by omega)
      rw [chunk_alloc_some H (fuel + 1) size nblock s h h2, hum1]
    · right; right
      have hgrow : ∀ m, usub (grown m size nblock s).end_free (grown m size nblock s).start_free
          = bytes_to_get size nblock s := by
        intro m
        show usub (m + bytes_to_get size nblock s) m = bytes_to_get size nblock s
        rw [usub_of_le _ _ (by omega) (by rw [hM]; omega)]
        omega
      by_cases hm : H s.log (bytes_to_get size nblock s) = 0
      · right
        by_cases hs : size ≤ ESmallObjectBytes
        · by_cases hp : s.free_list (__freelist_index size) = 0
          · right; left
            exact ⟨h2, hm, hs, hp, chunk_alloc_exit H (fuel + 1) size nblock s h h2 hm hs hp⟩
          · left
            refine ⟨h2, hm, hs, hp, ?_⟩
            have hpool :
                usub (adopted (s.free_list (__freelist_index size)) size nblock s).end_free
                  (adopted (s.free_list (__freelist_index size)) size nblock s).start_free
                  = size := by
              show usub (s.free_list (__freelist_index size) + size)
                (s.free_list (__freelist_index size)) = size
              rw [usub_of_le _ _ (by omega) (by rw [hM]; omega)]
              omega
            rw [chunk_alloc_salvage H (fuel + 1) size nblock s h h2 hm hs hp]
            by_cases hf : umul size nblock ≤ size
            · refine ⟨nblock, hnb, le_refl _, ?_⟩
              rw [chunk_alloc_full H fuel size nblock _ (by rw [hpool]; exact hf), hum]
              rfl
            · refine ⟨1, le_refl _, hnb, ?_⟩
              rw [chunk_alloc_some H fuel size nblock _ (by rw [hpool]; exact hf)
                (by rw [hpool]), hpool]
              have e1 : size / size = 1 := Nat.div_self (by omega)
              have e2 : umul size 1 = size * 1 := Nat.mod_eq_of_lt (by rw [hM]; omega)
              rw [e1, e2]
              rfl
        · right; right
          refine ⟨h2, hm, hs, ?_⟩
          rw [chunk_alloc_refused_large H (fuel + 1) size nblock s h h2 hm hs,
            chunk_alloc_full H fuel size nblock _ (by rw [hgrow, hum]; omega), hum]
          rfl
      · left
        refine ⟨h2, hm, ?_⟩
        rw [chunk_alloc_grow H (fuel + 1) size nblock s h h2 hm,
          chunk_alloc_full H fuel size nblock _ (by rw [hgrow, hum]; omega), hum]
        rfl

/-! ## Carving, growth and termination of the carver -/

/-- C16, the claim fails when `block_size * want_count` wraps: with a pool of `2 ^ 33` bytes,
`block_size = want_count = 2 ^ 32` satisfy the conditions of the claim, `need_bytes` is
`2 ^ 64 mod 2 ^ 64 = 0`, and the call returns `got_count = 2 ^ 32` with `start_free` not
advanced, where the claim has `got_count = min (2 ^ 32) 2 = 2` and an advance of `2 ^ 33`. -/
theorem carve_product_wraps :
    (1 ≤ 4294967296 ∧ stateWithHugePool.start_free ≤ stateWithHugePool.end_free ∧
      4294967296 ≤ stateWithHugePool.end_free - stateWithHugePool.start_free) ∧
    (__chunk_alloc emptyHeap 1 4294967296 4294967296 stateWithHugePool).value?
      = some (4096, 4294967296) ∧
    (__chunk_alloc emptyHeap 1 4294967296 4294967296 stateWithHugePool).state?.map
      (fun s => s.start_free) = some 4096 ∧
    min 4294967296
      ((stateWithHugePool.end_free - stateWithHugePool.start_free) / 4294967296) = 2 := by
  decide

/-- C16 as amended: for `block_size ≥ 1` and a `want_count` (`≥ 1` or not) such that
`block_size * want_count` fits `size_t`, in a
state whose pool `[start_free, end_free)` (with `end_free` a 64-bit address) holds
`P ≥ block_size` bytes, `__chunk_alloc` returns the old `start_free` and
`got_count = min want_count (P / block_size)`, advances `start_free` by
`block_size * got_count` and changes nothing else: `end_free`, `heap_size`, the bucket heads,
the link memory and the log of heap calls are those of the state before. -/
theorem carve_without_growth (H : Heap) (fuel size nblock : Nat) (s : State)
    (h1 : 1 ≤ size) (hov : size * nblock < SIZE_MOD)
    (hle : s.start_free ≤ s.end_free) (hend : s.end_free < SIZE_MOD)
    (hp : size ≤ s.end_free - s.start_free) :
    __chunk_alloc H (fuel + 1) size nblock s =
      .ret (s.start_free, min nblock ((s.end_free - s.start_free) / size))
        { s with start_free :=
            s.start_free + size * min nblock ((s.end_free - s.start_free) / size) } := by
  have hM : SIZE_MOD = 18446744073709551616 := rfl
  have hov1 : size * nblock < 18446744073709551616 := hov
  have hend1 : s.end_free < 18446744073709551616 := hend
  have hpool : usub s.end_free s.start_free = s.end_free - s.start_free :=
    usub_of_le _ _ hle (by rw [hM]; omega)
  have hum : umul size nblock = size * nblock := Nat.mod_eq_of_lt hov
  by_cases h : umul size nblock ≤ usub s.end_free s.start_free
  · rw [chunk_alloc_full H fuel size nblock s h, hum]
    rw [hum, hpool] at h
    have hk : nblock ≤ (s.end_free - s.start_free) / size :=
      (Nat.le_div_iff_mul_le (by omega)).mpr (by rw [Nat.mul_comm]; exact h)
    rw [Nat.min_eq_left hk]
  · have h2 : size ≤ usub s.end_free s.start_free := by rw [hpool]; exact hp
    rw [chunk_alloc_some H fuel size nblock s h h2, hpool]
    rw [hum, hpool] at h
    have hk : (s.end_free - s.start_free) / size ≤ nblock := by
      apply Nat.le_of_lt
      apply (Nat.div_lt_iff_lt_mul (by omega)).mpr
      rw [Nat.mul_comm]
      omega
    have hk3 : size * ((s.end_free - s.start_free) / size) ≤ s.end_free - s.start_free :=
      Nat.mul_div_le _ _
    have hum1 : umul size ((s.end_free - s.start_free) / size)
        = size * ((s.end_free - s.start_free) / size) :=
      Nat.mod_eq_of_lt (by rw [hM]; omega)
    rw [Nat.min_eq_right hk, hum1]

/-- Witness of C16 as amended: 64-byte blocks, 8 wanted, from a pool of 200 bytes at 4096. -/
theorem carve_without_growth_witness :
    (1 ≤ 64 ∧ 64 * 8 < SIZE_MOD ∧ (4096 : Nat) ≤ 4296 ∧ 4296 < SIZE_MOD ∧
      64 ≤ 4296 - 4096) ∧
    __chunk_alloc emptyHeap 1 64 8 { alloc.init with start_free := 4096, end_free := 4296 } =
      .ret (4096, min 8 ((4296 - 4096) / 64))
        { alloc.init with start_free := 4096 + 64 * min 8 ((4296 - 4096) / 64),
                          end_free := 4296 } :=
  ⟨⟨by decide, by show 64 * 8 < 18446744073709551616; omega, by decide,
      by show 4296 < 18446744073709551616; omega, by decide⟩,
    carve_without_growth emptyHeap 0 64 8
      { alloc.init with start_free := 4096, end_free := 4296 } (by decide)
      (by show 64 * 8 < 18446744073709551616; omega) (by decide)
      (by show 4296 < 18446744073709551616; omega) (by decide)⟩

/-- C17, the claim fails for `want_count = 0`: in the initial state the pool holds 0 bytes,
fewer than `block_size = 8`, but `need_bytes` is 0 and `__chunk_alloc 8 0` returns from its
first case without any heap request. -/
theorem carve_zero_blocks_no_request :
    (alloc.init.end_free - alloc.init.start_free < 8) ∧
    (__chunk_alloc bumpHeap 2 8 0 alloc.init).value? = some (0, 0) ∧
    (__chunk_alloc bumpHeap 2 8 0 alloc.init).state?.map (fun s => s.log) = some [] := by
  decide

/-- C17 as amended (`want_count ≥ 1` added): in a state whose pool holds fewer than
`block_size` bytes and whose `heap_size` is `h`, without arithmetic overflow,
`__chunk_alloc block_size want_count` issues exactly one heap request, of
`2 * (block_size * want_count) + __round_up (h / 16)` bytes; when the heap grants it at `m`
the call is retried in the state whose pool is `[m, m + that size)` and whose `heap_size` is
`h` plus that size.  The size depends on the `heap_size` of the state the call starts in. -/
theorem carve_growth_request (H : Heap) (fuel size nblock : Nat) (s : State)
    (hnb : 1 ≤ nblock) (hle : s.start_free ≤ s.end_free)
    (hp : s.end_free - s.start_free < size)
    (hov : 2 * (size * nblock) + __round_up (s.heap_size / 16) < SIZE_MOD)
    (hov2 : s.heap_size + (2 * (size * nblock) + __round_up (s.heap_size / 16)) < SIZE_MOD) :
    bytes_to_get size nblock s = 2 * (size * nblock) + __round_up (s.heap_size / 16) ∧
    (∃ s1, (__chunk_alloc H (fuel + 2) size nblock s).state? = some s1 ∧
      s1.log = s.log ++
        [HeapEvent.malloc (2 * (size * nblock) + __round_up (s.heap_size / 16))]) ∧
    (H s.log (2 * (size * nblock) + __round_up (s.heap_size / 16)) ≠ 0 →
      ∃ s2, __chunk_alloc H (fuel + 1) size nblock s = __chunk_alloc H fuel size nblock s2 ∧
        s2.start_free = H s.log (2 * (size * nblock) + __round_up (s.heap_size / 16)) ∧
        s2.end_free = s2.start_free + (2 * (size * nblock) + __round_up (s.heap_size / 16)) ∧
        s2.heap_size = s.heap_size + (2 * (size * nblock) + __round_up (s.heap_size / 16)) ∧
        s2.free_list = s.free_list ∧
        s2.log = s.log ++
          [HeapEvent.malloc (2 * (size * nblock) + __round_up (s.heap_size / 16))]) := by
  have hM : SIZE_MOD = 18446744073709551616 := rfl
  have hov1 : 2 * (size * nblock) + __round_up (s.heap_size / 16) < 18446744073709551616 := hov
  have hov3 : s.heap_size + (2 * (size * nblock) + __round_up (s.heap_size / 16))
      < 18446744073709551616 := hov2
  have h1 : 1 ≤ size := by omega
  have hsz : size ≤ size * nblock := Nat.le_mul_of_pos_right size hnb
  have hb := bytes_to_get_fits size nblock s hov
  have hpool : usub s.end_free s.start_free = s.end_free - s.start_free :=
    usub_of_le _ _ hle (by rw [hM]; omega)
  have hum : umul size nblock = size * nblock := Nat.mod_eq_of_lt (by rw [hM]; omega)
  have hn2 : ¬ size ≤ usub s.end_free s.start_free := by rw [hpool]; omega
  have hn1 : ¬ umul size nblock ≤ usub s.end_free s.start_free := by rw [hpool, hum]; omega
  refine ⟨hb, ?_, ?_⟩
  · rw [← hb]
    rcases chunk_alloc_cases H fuel size nblock s h1 hnb hov with
      ⟨hc, _⟩ | ⟨_, hc, _⟩ | ⟨_, _, he⟩ | ⟨_, _, _, _, k, _, _, he⟩ | ⟨_, _, _, _, he⟩ |
      ⟨_, _, _, he⟩
    · exact absurd hc hn1
    · exact absurd hc hn2
    · rw [he]; exact ⟨_, rfl, rfl⟩
    · rw [he]; exact ⟨_, rfl, rfl⟩
    · rw [he]; exact ⟨_, rfl, rfl⟩
    · rw [he]; exact ⟨_, rfl, rfl⟩
  · rw [← hb]
    intro hm
    refine ⟨grown (H s.log (bytes_to_get size nblock s)) size nblock s,
      chunk_alloc_grow H fuel size nblock s hn1 hn2 hm, rfl, rfl, ?_, rfl, rfl⟩
    show uadd s.heap_size (bytes_to_get size nblock s) = _
    exact Nat.mod_eq_of_lt (by rw [hM, hb]; omega)

/-- Witness of C17 as amended: the first growth, for `__chunk_alloc 64 8` in the initial
state. -/
theorem carve_growth_request_witness :
    (1 ≤ 8 ∧ alloc.init.start_free ≤ alloc.init.end_free ∧
      alloc.init.end_free - alloc.init.start_free < 64 ∧
      2 * (64 * 8) + __round_up (alloc.init.heap_size / 16) < SIZE_MOD ∧
      alloc.init.heap_size + (2 * (64 * 8) + __round_up (alloc.init.heap_size / 16))
        < SIZE_MOD) ∧
    bytes_to_get 64 8 alloc.init = 2 * (64 * 8) + __round_up (alloc.init.heap_size / 16) ∧
    (∃ s1, (__chunk_alloc bumpHeap 2 64 8 alloc.init).state? = some s1 ∧
      s1.log = alloc.init.log ++
        [HeapEvent.malloc (2 * (64 * 8) + __round_up (alloc.init.heap_size / 16))]) ∧
    (bumpHeap alloc.init.log (2 * (64 * 8) + __round_up (alloc.init.heap_size / 16)) ≠ 0 →
      ∃ s2, __chunk_alloc bumpHeap 1 64 8 alloc.init = __chunk_alloc bumpHeap 0 64 8 s2 ∧
        s2.start_free =
          bumpHeap alloc.init.log (2 * (64 * 8) + __round_up (alloc.init.heap_size / 16)) ∧
        s2.end_free =
          s2.start_free + (2 * (64 * 8) + __round_up (alloc.init.heap_size / 16)) ∧
        s2.heap_size =
          alloc.init.heap_size + (2 * (64 * 8) + __round_up (alloc.init.heap_size / 16)) ∧
        s2.free_list = alloc.init.free_list ∧
        s2.log = alloc.init.log ++
          [HeapEvent.malloc (2 * (64 * 8) + __round_up (alloc.init.heap_size / 16))]) :=
  ⟨by decide,
    carve_growth_request bumpHeap 0 64 8 alloc.init (by decide) (by decide) (by decide)
      (by decide) (by decide)⟩

/-- C20: for `block_size ≥ 1`, `want_count ≥ 1` and a growth request that fits `size_t`, in any
state, `__chunk_alloc` finishes (returns or exits) with fuel 2, that is with at most one
recursive call, and issues at most one heap request.  After a granted request the retry
returns all `want_count` blocks from the new region; after the adoption of a block of the
bucket of `block_size` the retry is served from that block (`got_count ≥ 1`) and issues no
further request. -/
theorem carve_at_most_one_retry (H : Heap) (fuel size nblock : Nat) (s : State)
    (h1 : 1 ≤ size) (hnb : 1 ≤ nblock)
    (hov : 2 * (size * nblock) + __round_up (s.heap_size / 16) < SIZE_MOD) :
    __chunk_alloc H 2 size nblock s ≠ .spin ∧
    (∃ s1, (__chunk_alloc H (fuel + 2) size nblock s).state? = some s1 ∧
      (s1.log = s.log ∨
        s1.log = s.log ++ [HeapEvent.malloc (bytes_to_get size nblock s)])) ∧
    (¬ size ≤ usub s.end_free s.start_free → H s.log (bytes_to_get size nblock s) ≠ 0 →
      ∃ s1, __chunk_alloc H (fuel + 2) size nblock s =
          .ret (H s.log (bytes_to_get size nblock s), nblock) s1 ∧
        s1.start_free = H s.log (bytes_to_get size nblock s) + size * nblock ∧
        s1.end_free = H s.log (bytes_to_get size nblock s) + bytes_to_get size nblock s ∧
        s1.start_free ≤ s1.end_free ∧
        s1.log = s.log ++ [HeapEvent.malloc (bytes_to_get size nblock s)]) ∧
    (¬ size ≤ usub s.end_free s.start_free → H s.log (bytes_to_get size nblock s) = 0 →
      size ≤ ESmallObjectBytes → s.free_list (__freelist_index size) ≠ 0 →
      ∃ k s1, __chunk_alloc H (fuel + 2) size nblock s =
          .ret (s.free_list (__freelist_index size), k) s1 ∧
        1 ≤ k ∧ k ≤ nblock ∧
        s1.start_free = s.free_list (__freelist_index size) + size * k ∧
        s1.end_free = s.free_list (__freelist_index size) + size ∧
        s1.heap_size = s.heap_size ∧
        s1.log = s.log ++ [HeapEvent.malloc (bytes_to_get size nblock s)]) := by
  have hb := bytes_to_get_fits size nblock s hov
  have hsz : size ≤ size * nblock := Nat.le_mul_of_pos_right size hnb
  have hum : umul size nblock = size * nblock :=
    Nat.mod_eq_of_lt (by show _ < 18446744073709551616
                         have : 2 * (size * nblock) + __round_up (s.heap_size / 16)
                           < 18446744073709551616 := hov
                         omega)
  refine ⟨?_, ?_, ?_, ?_⟩
  · rcases chunk_alloc_cases H 0 size nblock s h1 hnb hov with
      ⟨_, he⟩ | ⟨_, _, he⟩ | ⟨_, _, he⟩ | ⟨_, _, _, _, k, _, _, he⟩ | ⟨_, _, _, _, he⟩ |
      ⟨_, _, _, he⟩ <;>
    · rw [he]
      intro hc
      cases hc
  · rcases chunk_alloc_cases H fuel size nblock s h1 hnb hov with
      ⟨_, he⟩ | ⟨_, _, he⟩ | ⟨_, _, he⟩ | ⟨_, _, _, _, k, _, _, he⟩ | ⟨_, _, _, _, he⟩ |
      ⟨_, _, _, he⟩
    · rw [he]; exact ⟨_, rfl, Or.inl rfl⟩
    · rw [he]; exact ⟨_, rfl, Or.inl rfl⟩
    · rw [he]; exact ⟨_, rfl, Or.inr rfl⟩
    · rw [he]; exact ⟨_, rfl, Or.inr rfl⟩
    · rw [he]; exact ⟨_, rfl, Or.inr rfl⟩
    · rw [he]; exact ⟨_, rfl, Or.inr rfl⟩
  · intro hn2 hm
    rcases chunk_alloc_cases H fuel size nblock s h1 hnb hov with
      ⟨hc, _⟩ | ⟨_, hc, _⟩ | ⟨_, _, he⟩ | ⟨_, hc, _⟩ | ⟨_, hc, _⟩ | ⟨_, hc, _⟩
    · rw [hum] at hc; omega
    · exact absurd hc hn2
    · refine ⟨_, he, rfl, rfl, ?_, rfl⟩
      show H s.log (bytes_to_get size nblock s) + size * nblock ≤
        H s.log (bytes_to_get size nblock s) + bytes_to_get size nblock s
      omega
    · exact absurd hc hm
    · exact absurd hc hm
    · exact absurd hc hm
  · intro hn2 hm hs hp
    rcases chunk_alloc_cases H fuel size nblock s h1 hnb hov with
      ⟨hc, _⟩ | ⟨_, hc, _⟩ | ⟨_, hc, _⟩ | ⟨_, _, _, _, k, hk1, hk2, he⟩ | ⟨_, _, _, hc, _⟩ |
      ⟨_, _, hc, _⟩
    · rw [hum] at hc; omega
    · exact absurd hc hn2
    · exact absurd hm hc
    · exact ⟨k, _, he, hk1, hk2, rfl, rfl, rfl, rfl⟩
    · exact absurd hc hp
    · exact absurd hs hc

/-- Witness of C20: `__chunk_alloc 64 8` in the initial state, against a granting heap. -/
theorem carve_at_most_one_retry_witness :
    (1 ≤ 64 ∧ 1 ≤ 8 ∧ 2 * (64 * 8) + __round_up (alloc.init.heap_size / 16) < SIZE_MOD) ∧
    __chunk_alloc bumpHeap 2 64 8 alloc.init ≠ .spin ∧
    (∃ s1, (__chunk_alloc bumpHeap (0 + 2) 64 8 alloc.init).state? = some s1 ∧
      (s1.log = alloc.init.log ∨
        s1.log = alloc.init.log ++ [HeapEvent.malloc (bytes_to_get 64 8 alloc.init)])) :=
  ⟨by decide,
    (carve_at_most_one_retry bumpHeap 0 64 8 alloc.init (by decide) (by decide) (by decide)).1,
    (carve_at_most_one_retry bumpHeap 0 64 8 alloc.init (by decide) (by decide)
      (by decide)).2.1⟩

/-! ## The bucket table is read-only -/

/-- `__chunk_alloc` never changes the bucket heads, whatever its arguments and fuel. -/
theorem chunk_alloc_free_list (H : Heap) :
    ∀ (fuel size nblock : Nat) (s s1 : State),
      (__chunk_alloc H fuel size nblock s).state? = some s1 → s1.free_list = s.free_list := by
  intro fuel
  induction fuel with
  | zero =>
    intro size nblock s s1 h
    cases h
  | succ f ih =>
    intro size nblock s s1 hst
    by_cases h : umul size nblock ≤ usub s.end_free s.start_free
    · rw [chunk_alloc_full H f size nblock s h] at hst
      injection hst with e
      rw [← e]
    · by_cases h1 : size ≤ usub s.end_free s.start_free
      · rw [chunk_alloc_some H f size nblock s h h1] at hst
        injection hst with e
        rw [← e]
      · by_cases hm : H s.log (bytes_to_get size nblock s) = 0
        · by_cases hs : size ≤ ESmallObjectBytes
          · by_cases hp : s.free_list (__freelist_index size) = 0
            · rw [chunk_alloc_exit H f size nblock s h h1 hm hs hp] at hst
              injection hst with e
              rw [← e]
              rfl
            · rw [chunk_alloc_salvage H f size nblock s h h1 hm hs hp] at hst
              have e := ih size nblock _ s1 hst
              exact e
          · rw [chunk_alloc_refused_large H f size nblock s h h1 hm hs] at hst
            have e := ih size nblock _ s1 hst
            exact e
        · rw [chunk_alloc_grow H f size nblock s h h1 hm] at hst
          have e := ih size nblock _ s1 hst
          exact e

/-- The state `__refill` ends in is the one its carver call ended in, up to link memory. -/
theorem refill_frame (H : Heap) (f n : Nat) (s s1 : State)
    (hst : (__refill H f n s).state? = some s1) :
    ∃ s0, (__chunk_alloc H f n (__get_blocks n) s).state? = some s0 ∧
      s1.start_free = s0.start_free ∧ s1.end_free = s0.end_free ∧
      s1.heap_size = s0.heap_size ∧ s1.free_list = s0.free_list ∧ s1.log = s0.log := by
  cases hc : __chunk_alloc H f n (__get_blocks n) s with
  | spin =>
    unfold __refill at hst
    rw [hc] at hst
    cases hst
  | exit code s2 =>
    rw [refill_of_exit H f n code s s2 hc] at hst
    injection hst with e
    exact ⟨s2, rfl, by rw [e], by rw [e], by rw [e], by rw [e], by rw [e]⟩
  | ret v s2 =>
    obtain ⟨c, k⟩ := v
    rw [refill_of_ret H f n c k s s2 hc] at hst
    by_cases hk : k = 1
    · rw [if_pos hk] at hst
      injection hst with e
      exact ⟨s2, rfl, by rw [e], by rw [e], by rw [e], by rw [e], by rw [e]⟩
    · rw [if_neg hk] at hst
      injection hst with e
      exact ⟨s2, rfl, by rw [← e], by rw [← e], by rw [← e], by rw [← e], by rw [← e]⟩

/-- `__refill` never changes the bucket heads. -/
theorem refill_free_list (H : Heap) (f n : Nat) (s s1 : State)
    (hst : (__refill H f n s).state? = some s1) : s1.free_list = s.free_list := by
  obtain ⟨s0, h0, _, _, _, hfl, _⟩ := refill_frame H f n s s1 hst
  rw [hfl]
  exact chunk_alloc_free_list H f n _ s s0 h0

/-- `allocate` never changes the bucket heads. -/
theorem allocate_free_list (H : Heap) (f n : Nat) (s s1 : State)
    (hst : (allocate H f n s).state? = some s1) : s1.free_list = s.free_list := by
  unfold allocate at hst
  by_cases hn : n > ESmallObjectBytes
  · rw [if_pos hn] at hst
    injection hst with e
    rw [← e]
  · rw [if_neg hn] at hst
    by_cases h0 : s.free_list (__freelist_index n) = 0
    · simp only [h0, if_true] at hst
      exact refill_free_list H f _ s s1 hst
    · simp only [h0, if_false] at hst
      injection hst with e
      rw [← e]

/-- `deallocate` never changes the bucket heads. -/
theorem deallocate_free_list (p n : Nat) (s : State) :
    (deallocate p n s).free_list = s.free_list := by
  unfold deallocate
  split_ifs <;> rfl

/-- C19: the stored bucket table is never written.  For every state and all arguments (and any
fuel), the state in which `__chunk_alloc`, `__refill`, `allocate`, `deallocate` or
`reallocate` ends, by return or by exit, has the bucket heads of the state it started in.
Hence every bucket head of a reachable state `r` is null, and in `r` every `allocate k` with
`k` in `1..2048` is the refill of the rounded size, never the fast path. -/
theorem bucket_table_never_written (H : Heap) (fuel size nblock p n old_size new_size k : Nat)
    (s r : State) (hr : Reachable H r) (_hk1 : 1 ≤ k) (hk2 : k ≤ 2048) :
    (∀ s1, (__chunk_alloc H fuel size nblock s).state? = some s1 →
      s1.free_list = s.free_list) ∧
    (∀ s1, (__refill H fuel n s).state? = some s1 → s1.free_list = s.free_list) ∧
    (∀ s1, (allocate H fuel n s).state? = some s1 → s1.free_list = s.free_list) ∧
    (deallocate p n s).free_list = s.free_list ∧
    (∀ s1, (reallocate H fuel p old_size new_size s).state? = some s1 →
      s1.free_list = s.free_list) ∧
    (∀ i, r.free_list i = 0) ∧
    allocate H fuel k r = __refill H fuel (__round_up k) r := by
  have hI := reachable_inv H r hr
  refine ⟨chunk_alloc_free_list H fuel size nblock s, refill_free_list H fuel n s,
    allocate_free_list H fuel n s, deallocate_free_list p n s, ?_, hI.heads_null,
    allocate_of_null H fuel k r hk2 (hI.heads_null _)⟩
  intro s1 hst
  rw [reallocate_eq] at hst
  rw [allocate_free_list H fuel new_size _ s1 hst]
  exact deallocate_free_list p old_size s

/-- Witness of C19 in the initial state. -/
theorem bucket_table_never_written_witness :
    (Reachable bumpHeap alloc.init ∧ 1 ≤ 64 ∧ 64 ≤ 2048) ∧
    (∀ i, alloc.init.free_list i = 0) ∧
    allocate bumpHeap 2 64 alloc.init = __refill bumpHeap 2 (__round_up 64) alloc.init :=
  ⟨⟨Reachable.init, by decide, by decide⟩,
    (bucket_table_never_written bumpHeap 2 64 8 4096 64 64 64 64 alloc.init alloc.init
      Reachable.init (by decide) (by decide)).2.2.2.2.2⟩

/-! ## The pool bounds and the counter `heap_size` -/

/-- A run of `allocate` calls with positive sizes from a reachable state ends in a reachable
state. -/
theorem run_allocs_reachable (H : Heap) (fuel : Nat) :
    ∀ (sizes : List Nat) (s s1 : State), Reachable H s → (∀ n ∈ sizes, 1 ≤ n) →
      run_allocs H fuel sizes s = some s1 → Reachable H s1 := by
  intro sizes
  induction sizes with
  | nil =>
    intro s s1 hs _ h
    injection h with e
    rw [← e]
    exact hs
  | cons n rest ih =>
    intro s s1 hs hpos h
    unfold run_allocs at h
    cases ha : allocate H fuel n s with
    | ret p s2 =>
      rw [ha] at h
      exact ih s2 s1 (Reachable.allocate hs (hpos n (List.mem_cons_self n rest)) ha)
        (fun m hm => hpos m (List.mem_cons_of_mem n hm)) h
    | exit c s2 => rw [ha] at h; cases h
    | spin => rw [ha] at h; cases h

/-- C12, evaluated on the code: with an empty pool, an empty bucket for the 64-byte class, one
free block (at 8192) in the bucket of the larger 128-byte class and a heap that refuses the
growth request, `allocate(64)` ends the process with status 1 after looking at the bucket of
the 64-byte class only; it does not adopt the 128-byte block. -/
theorem salvage_scan_stops_at_first_class :
    (stateWithLargerBucket.start_free = stateWithLargerBucket.end_free ∧
      stateWithLargerBucket.free_list (__freelist_index 64) = 0 ∧
      stateWithLargerBucket.free_list (__freelist_index 128) = 8192) ∧
    (allocate emptyHeap 2 64 stateWithLargerBucket).exitCode? = some 1 ∧
    (allocate emptyHeap 2 64 stateWithLargerBucket).value? = none ∧
    (allocate emptyHeap 2 64 stateWithLargerBucket).state?.map
        (fun s => (s.log, s.cerr.length, s.start_free, s.end_free))
      = some ([HeapEvent.malloc 1024], 1, 0, 0) := by
  decide

/-- C14, evaluated on the code: `__refill 64` in the initial state, against a granting heap,
gets 8 blocks at `c = 4096` and returns `c`; it links the blocks `c + 64, ..., c + 7 * 64` in
memory, the last link being null, but the stored head of bucket `__freelist_index 64 = 7` is
still null afterwards, not `c + 64 = 4160`. -/
theorem refill_leaves_stored_head :
    (__chunk_alloc bumpHeap 2 64 (__get_blocks 64) alloc.init).value? = some (4096, 8) ∧
    (__refill bumpHeap 2 64 alloc.init).value? = some 4096 ∧
    (__refill bumpHeap 2 64 alloc.init).state?.map
        (fun s => (s.free_list (__freelist_index 64),
          [s.mem 4160, s.mem 4224, s.mem 4288, s.mem 4352, s.mem 4416, s.mem 4480, s.mem 4544]))
      = some (0, [4224, 4288, 4352, 4416, 4480, 4544, 0]) := by
  decide

/-- C15, evaluated on the code: after `allocate(8); allocate(1024); allocate(512)` from the
initial state, against a granting heap, the pool holds 1032 bytes.  `allocate(2048)` then
takes the growth branch of `__chunk_alloc 2048 1` with the leftover `L = 1032`, and the bucket
selected for it is `__freelist_index 1032 = 40`, the bucket of the 1152-byte class:
`__round_up 1032 = 1152`, not 1032. -/
theorem leftover_filed_under_larger_class :
    run_allocs bumpHeap 2 [8, 1024, 512] alloc.init = some leftoverState ∧
    Reachable bumpHeap leftoverState ∧
    usub leftoverState.end_free leftoverState.start_free = 1032 ∧
    __round_up 2048 = 2048 ∧ __get_blocks 2048 = 1 ∧ ¬ (2048 ≤ 1032) ∧
    (run_allocs bumpHeap 2 [2048] leftoverState).map (fun s => s.log)
      = some [HeapEvent.malloc 128, HeapEvent.malloc 4104, HeapEvent.malloc 4384] ∧
    __freelist_index 1032 = 40 ∧ class_size_spec 40 = 1152 ∧ __round_up 1032 = 1152 := by
  have hrun : run_allocs bumpHeap 2 [8, 1024, 512] alloc.init = some leftoverState := rfl
  refine ⟨hrun, ?_, by decide, by decide, by decide, by decide, by decide, by decide,
    by decide, by decide⟩
  refine run_allocs_reachable bumpHeap 2 [8, 1024, 512] alloc.init leftoverState
    Reachable.init ?_ hrun
  intro n hn
  simp only [List.mem_cons, List.mem_singleton, List.not_mem_nil, or_false] at hn
  omega
